import Mathlib

/-!
Verification of the rverflow R package resolver against its specification.

This file gives a shallow embedding of the relevant parts of the Python
source (rversion.py, metadata.py, constants.py, models.py, solver.py) as
executable Lean definitions, and settles the frozen claims C1 to C10 as
theorems about those definitions.

Modelling conventions:
- Python dicts are insertion ordered association lists; updating an
  existing key keeps its position, inserting a new key appends at the end.
- Python sets are modelled by first-occurrence deduplication; where set
  iteration order is observable (hash dependent in CPython), the order is
  an explicit function parameter required to enumerate the deduplicated
  elements in some order (a permutation).
- Python list.sort and sorted are stable; they are modelled by a stable
  insertion sort, which agrees with any stable sort for a total comparator.
- Exceptions are modelled with Except; the recursion of the backtracking
  resolver is bounded by explicit fuel (the Python recursion is unbounded,
  and every run considered here terminates well within the given fuel).
-/

deriving instance DecidableEq for Except

/-! ## Python primitives -/

/-- Python whitespace characters recognised by str.strip and the regex
class used in the source (ASCII subset). -/
def pyIsSpace (c : Char) : Bool :=
  c = ' ' || c = '\t' || c = '\n' || c = '\r' || c = '\x0b' || c = '\x0c'

/-- Python str.strip for ASCII inputs. -/
def pyStrip (s : String) : String :=
  (((s.toList.dropWhile pyIsSpace).reverse.dropWhile pyIsSpace).reverse).asString

/-- Decimal value of a digit run, as produced by Python int on a digit
string. -/
def natOfDigits (l : List Char) : Nat :=
  l.foldl (fun n c => n * 10 + (c.toNat - 48)) 0

/-- Splitting of a character list at every separator, keeping empty
pieces (Python str.split with a separator argument). -/
def charSplit (p : Char → Bool) : List Char → List (List Char)
  | [] => [[]]
  | c :: rest =>
      match charSplit p rest with
      | [] => [[c]]
      | cur :: others =>
          if p c then [] :: cur :: others else (c :: cur) :: others

/-- String split on a character predicate, keeping empty pieces. -/
def splitStr (p : Char → Bool) (s : String) : List String :=
  (charSplit p s.toList).map List.asString

/-- Python str.lower for ASCII strings. -/
def pyLower (s : String) : String :=
  (s.toList.map Char.toLower).asString

/-- Code point lexicographic strict order on character lists (Python
string comparison). -/
def charListLt : List Char → List Char → Bool
  | _, [] => false
  | [], _ :: _ => true
  | a :: as, b :: bs =>
      a.toNat < b.toNat || (a.toNat = b.toNat && charListLt as bs)

/-- Python string strict order. -/
def strLt (a b : String) : Bool := charListLt a.toList b.toList

/-- Stable insertion of an element after every element le-below it. -/
def stableInsert (le : α → α → Bool) (x : α) : List α → List α
  | [] => [x]
  | y :: ys => if le y x then y :: stableInsert le x ys else x :: y :: ys

/-- Stable sort (models Python sorted and list.sort, which are stable). -/
def stableSort (le : α → α → Bool) (l : List α) : List α :=
  l.foldl (fun acc x => stableInsert le x acc) []

/-- First-occurrence deduplication with respect to a key function; models
the seen-set loop in the source and Python set construction. -/
def dedupByKey [DecidableEq β] (key : α → β) : List α → List β → List α
  | [], _ => []
  | x :: xs, seen =>
      if key x ∈ seen then dedupByKey key xs seen
      else x :: dedupByKey key xs (key x :: seen)

/-! ## Version algebra (rversion.py) -/

/-- Splitting characters for version components (source regex [._-]). -/
def isSepChar (c : Char) : Bool := c = '.' || c = '_' || c = '-'

/-- Source function _tokenize: strip, split on separators, drop empty
chunks, defaulting to the single token "0". -/
def tokenize (version : String) : List String :=
  let v := pyStrip version
  if v = "" then ["0"]
  else
    let parts := ((charSplit isSepChar v.toList).map List.asString).filter (fun c => c ≠ "")
    if parts = [] then ["0"] else parts

/-- One component of a parsed version: a token is a pure digit run, a
digit run followed by an alphabetic tail, or anything else (number 0). -/
def componentOfToken (token : String) : Nat × String :=
  let t := token.toList
  if t ≠ [] && t.all Char.isDigit then (natOfDigits t, "")
  else
    let d := t.takeWhile Char.isDigit
    let r := t.drop d.length
    if d ≠ [] && (match r with | c :: _ => c.isAlpha | [] => false) then
      (natOfDigits d, r.asString)
    else (0, token)

/-- Comparable representation of an R version string (class RVersion). -/
structure RVersion where
  raw : String
  components : List (Nat × String)
deriving DecidableEq

/-- Constructor of RVersion from a raw string (the source init method). -/
def RVersion.of (raw : String) : RVersion :=
  ⟨raw, (tokenize raw).map componentOfToken⟩

/-- Comparison of one (number, suffix) component pair, numbers first. -/
def cmpPair (x y : Nat × String) : Int :=
  if x.1 ≠ y.1 then (if x.1 < y.1 then -1 else 1)
  else if x.2 ≠ y.2 then (if strLt x.2 y.2 then -1 else 1)
  else 0

/-- Comparison of a leftover component list against the (0, "") padding
on the other side. -/
def cmpAgainstPad (flip : Bool) : List (Nat × String) → Int
  | [] => 0
  | x :: xs =>
      let c := if flip then cmpPair (0, "") x else cmpPair x (0, "")
      if c = 0 then cmpAgainstPad flip xs else c

/-- Lexicographic comparison of component lists, the shorter side padded
with (0, "") pairs (source method _compare, via zip_longest). -/
def compareComps : List (Nat × String) → List (Nat × String) → Int
  | [], ys => cmpAgainstPad true ys
  | x :: xs, [] =>
      let c := cmpPair x (0, "")
      if c = 0 then cmpAgainstPad false xs else c
  | x :: xs, y :: ys =>
      let c := cmpPair x y
      if c = 0 then compareComps xs ys else c

/-- Source function compare_versions. -/
def compare_versions (a b : String) : Int :=
  compareComps (RVersion.of a).components (RVersion.of b).components

/-- A comparator based version constraint (class VersionConstraint). -/
structure VersionConstraint where
  operator : String
  version : String
deriving DecidableEq

/-- Source method is_satisfied_by. On an operator outside the seven
handled cases the source raises ValueError; the parsers below only ever
produce the seven handled operators, so that branch is unreachable and is
rendered as false here. -/
def VersionConstraint.is_satisfied_by (c : VersionConstraint) (candidate : String) : Bool :=
  let cmp := compare_versions candidate c.version
  if c.operator = ">" then cmp > 0
  else if c.operator = ">=" then cmp ≥ 0
  else if c.operator = "<" then cmp < 0
  else if c.operator = "<=" then cmp ≤ 0
  else if c.operator = "==" || c.operator = "=" then cmp = 0
  else if c.operator = "!=" then cmp ≠ 0
  else false

/-- Source function satisfies_all. -/
def satisfies_all (candidate : String) (constraints : List VersionConstraint) : Bool :=
  constraints.all (fun c => c.is_satisfied_by candidate)

/-- Operators of the constraint token regex, in alternation order. -/
def constraintOps : List String := [">=", "<=", "==", "=", "!=", ">", "<"]

/-- Characters allowed in a version token by the regex [0-9A-Za-z_.-]. -/
def isVersionTokenChar (c : Char) : Bool :=
  c.isAlphanum || c = '_' || c = '.' || c = '-'

/-- Attempt to match one alternation of the constraint regex at the head
of the character list: an operator, optional whitespace, then a nonempty
version token. -/
def matchOpAt (l : List Char) : List String → Option (String × String)
  | [] => none
  | op :: ops =>
      if op.toList.isPrefixOf l then
        let rest := (l.drop op.length).dropWhile pyIsSpace
        let tok := rest.takeWhile isVersionTokenChar
        if tok ≠ [] then some (op, tok.asString) else matchOpAt l ops
      else matchOpAt l ops

/-- Leftmost match of the constraint token regex
(>=|<=|==|=|!=|>|<)\s*([0-9A-Za-z_.-]+) in a fragment (re.search). -/
def searchConstraintToken : List Char → Option (String × String)
  | [] => none
  | l@(_ :: rest) =>
      match matchOpAt l constraintOps with
      | some r => some r
      | none => searchConstraintToken rest

/-- Source function parse_constraint_expression: split on commas, strip
each fragment, silently skip fragments with no constraint-token match. -/
def parse_constraint_expression (expr : String) : List VersionConstraint :=
  (splitStr (fun c => c = ',') expr).filterMap (fun fragment =>
    let f := pyStrip fragment
    if f = "" then none
    else match searchConstraintToken f.toList with
      | some (op, version) => some ⟨op, version⟩
      | none => none)

/-! ## Constants (constants.py) -/

/-- Base R packages as written in the source, including the capitalised
entry "grDevices". -/
def BASE_R_PACKAGES : List String :=
  ["base", "compiler", "datasets", "graphics", "grDevices", "grid",
   "methods", "parallel", "splines", "stats", "stats4", "tcltk", "tools",
   "utils"]

def SUPPORTED_R_VERSIONS : List String :=
  ["3.6.0", "3.6.3", "4.0.0", "4.0.2", "4.0.5", "4.1.0", "4.1.2", "4.1.3",
   "4.2.0", "4.2.1", "4.2.2", "4.2.3", "4.3.0", "4.3.1", "4.3.2", "4.3.3",
   "4.4.0", "4.4.1"]

def BIOCONDUCTOR_R_MATRIX : List (String × String) :=
  [("3.12", "4.0"), ("3.13", "4.1"), ("3.14", "4.1"), ("3.15", "4.2"),
   ("3.16", "4.2"), ("3.17", "4.3"), ("3.18", "4.3"), ("3.19", "4.4")]

/-! ## Data model (models.py) -/

structure Dependency where
  name : String
  constraints : List VersionConstraint
  kind : String
  optional : Bool
  source_hint : Option String := none
deriving DecidableEq

structure PackageVersion where
  name : String
  version : String
  repo : String
  r_min : Option String
  dependencies : List Dependency
  bioc_release : Option String := none
  source_url : Option String := none
  metadata : List (String × String) := []
  published : Option String := none
deriving DecidableEq

structure PackageSelection where
  package : String
  version : String
  repo : String
  source_url : Option String
  dependencies : List Dependency
  r_min : Option String
  bioc_release : Option String := none
deriving DecidableEq

structure ResolutionPlan where
  r_version : String
  selections : List (String × PackageSelection)
  notes : List String := []
deriving DecidableEq

/-- The Conflict dataclass of models.py. Note that its fourth field is
named candidates_considered in the source, while every construction site
in solver.py passes the keyword argument candidates. -/
structure Conflict where
  package : String
  required_by : List String
  message : String
  candidates_considered : List String := []
deriving DecidableEq

/-- The ResolutionError exception of exceptions.py. -/
structure ResolutionError where
  package : String
  required_by : List String
  message : String
  candidates : Option (List String) := none
deriving DecidableEq

/-! ## Normalizers (metadata.py) -/

/-- The value of one dependency field in an upstream payload: absent, a
free-form comma separated string, a list of entries, or a mapping from
names to constraint expressions. -/
inductive DepSection where
  | missing
  | text (s : String)
  | items (xs : List String)
  | pairs (kvs : List (String × String))
deriving DecidableEq

/-- Python falsiness of a dependency section value. -/
def DepSection.isFalsy : DepSection → Bool
  | .missing => true
  | .text s => s = ""
  | .items xs => xs = []
  | .pairs kvs => kvs = []

/-- Characters allowed in a dependency name by the regex [A-Za-z0-9._]. -/
def isDepNameChar (c : Char) : Bool :=
  c.isAlphanum || c = '.' || c = '_'

/-- Source function _parse_dependency_entry: full match of the anchored
regex name(\s*\(constraints\))? on the stripped entry; entries that do
not match become a dependency with the whole stripped entry as name and
no constraints. -/
def parse_dependency_entry (entry : String) : String × List VersionConstraint :=
  let stripped := pyStrip entry
  let t := stripped.toList
  let nameCs := t.takeWhile isDepNameChar
  let rest := t.drop nameCs.length
  if nameCs = [] then (stripped, [])
  else if rest = [] then (nameCs.asString, [])
  else
    match rest.dropWhile pyIsSpace with
    | '(' :: afterParen =>
        let inner := afterParen.takeWhile (fun c => c ≠ ')')
        let remaining := afterParen.drop inner.length
        if inner ≠ [] && remaining = [')'] then
          (nameCs.asString, parse_constraint_expression inner.asString)
        else (stripped, [])
    | _ => (stripped, [])

/-- Source function _parse_dep_section. -/
def parse_dep_section (sec : DepSection) : List (String × List VersionConstraint) :=
  if sec.isFalsy then []
  else match sec with
    | .pairs kvs => kvs.map (fun kv => (kv.1, parse_constraint_expression kv.2))
    | .text s => (splitStr (fun c => c = ',') s).map parse_dependency_entry
    | .items xs => xs.map parse_dependency_entry
    | .missing => []

/-- Inner loop of _split_r_requirement: the candidate variable is
overwritten by each >= or > constraint in turn, so the last one wins. -/
def lastGeConstraint (cs : List VersionConstraint) : Option String :=
  cs.foldl (fun acc c =>
    if c.operator = ">=" || c.operator = ">" then some c.version else acc) none

/-- Update of the running R requirement by one candidate value: replace
only when the candidate compares strictly greater, keep the earlier value
on ties. -/
def updateRReq (acc : Option String) (v : String) : Option String :=
  match acc with
  | none => some v
  | some w => if compare_versions v w > 0 then some v else acc

/-- Left-to-right loop of _split_r_requirement, threading the running R
requirement. -/
def splitRAux : List Dependency → Option String → Option String × List Dependency
  | [], acc => (acc, [])
  | dep :: rest, acc =>
      if pyLower dep.name = "r" then
        let acc2 :=
          match lastGeConstraint dep.constraints with
          | none => acc
          | some v => updateRReq acc v
        splitRAux rest acc2
      else
        let tailResult := splitRAux rest acc
        (tailResult.1, dep :: tailResult.2)

/-- Source function _split_r_requirement: extract dependencies named R
(case-insensitively) into an R requirement and return the remaining
dependencies. Versions extracted by the parsers are nonempty strings, so
the Python truthiness test on the candidate is rendered as an Option
match. -/
def split_r_requirement (dependencies : List Dependency) : Option String × List Dependency :=
  splitRAux dependencies none

/-- Payload of one package version as delivered by an upstream source,
restricted to the fields the normalizers read. -/
structure Payload where
  depends : DepSection := .missing
  imports : DepSection := .missing
  linkingTo : DepSection := .missing
  suggests : DepSection := .missing
  version : Option String := none
  md5sum : Option String := none
  needsCompilation : Option String := none
  repository : Option String := none
  datePublication : Option String := none
  gitUrl : Option String := none
  gitLastCommitDate : Option String := none
  category : Option String := none
  gitBranch : Option String := none
deriving DecidableEq

/-- Source function _build_dependencies: collect the four dependency
sections, split out the R requirement, then drop dependencies whose
lowercased name is in BASE_R_PACKAGES. -/
def build_dependencies (payload : Payload) (include_optional : Bool := false) :
    List Dependency × Option String :=
  let fields : List (DepSection × String × Bool) :=
    [(payload.depends, "Depends", false), (payload.imports, "Imports", false),
     (payload.linkingTo, "LinkingTo", false), (payload.suggests, "Suggests", true)]
  let dependencies := fields.foldl (fun acc f =>
    if f.2.2 && !include_optional then acc
    else acc ++ (parse_dep_section f.1).map (fun nc =>
      ({ name := nc.1, constraints := nc.2, kind := f.2.1, optional := f.2.2 } : Dependency)))
    []
  let split := split_r_requirement dependencies
  let filtered := split.2.filter (fun dep => pyLower dep.name ∉ BASE_R_PACKAGES)
  (filtered, split.1)

/-- Source function _normalize_cran_payload. -/
def normalize_cran_payload (package : String) (payload : Payload) (version : String) :
    PackageVersion :=
  let built := build_dependencies payload
  let metadata :=
    (match payload.md5sum with | some v => [("MD5sum", v)] | none => []) ++
    (match payload.needsCompilation with | some v => [("NeedsCompilation", v)] | none => []) ++
    (match payload.repository with | some v => [("Repository", v)] | none => [])
  { name := package
    version := version
    repo := "CRAN"
    r_min := built.2
    dependencies := built.1
    source_url := some ("https://cran.r-project.org/package=" ++ package)
    published := payload.datePublication
    metadata := metadata }

/-- Source function _normalize_bioc_payload. A missing Version field is
rendered by Python str(None) as the string "None". -/
def normalize_bioc_payload (package : String) (payload : Payload) (release : String) :
    PackageVersion :=
  let built := build_dependencies payload
  let source_url :=
    match payload.gitUrl with
    | some u => u
    | none =>
        "https://bioconductor.org/packages/" ++ release ++ "/bioc/html/" ++ package ++ ".html"
  let published :=
    match payload.datePublication with
    | some d => some d
    | none => payload.gitLastCommitDate
  { name := package
    version := (match payload.version with | some v => v | none => "None")
    repo := "Bioconductor"
    r_min := built.2
    dependencies := built.1
    bioc_release := some release
    source_url := some source_url
    published := published
    metadata := [("category", (payload.category.getD "bioc")),
                 ("git_branch", (payload.gitBranch.getD ""))] }

/-! ## Python dictionary operations (insertion ordered) -/

/-- Lookup in an insertion ordered dictionary. -/
def alookup [DecidableEq κ] : List (κ × β) → κ → Option β
  | [], _ => none
  | p :: rest, k => if p.1 = k then some p.2 else alookup rest k

/-- Dictionary assignment: an existing key keeps its position, a new key
is appended at the end. -/
def pyDictSet [DecidableEq κ] : List (κ × β) → κ → β → List (κ × β)
  | [], k, v => [(k, v)]
  | p :: rest, k, v => if p.1 = k then (k, v) :: rest else p :: pyDictSet rest k v

/-- Dictionary deletion. -/
def pyDictDel [DecidableEq κ] : List (κ × β) → κ → List (κ × β)
  | [], _ => []
  | p :: rest, k => if p.1 = k then rest else p :: pyDictDel rest k

/-- First component of Python str.split(sep, 1) on a slash: owner and the
rest of the slug. -/
def splitOwnerRepo (s : String) : Option (String × String) :=
  match splitStr (fun c => c = '/') s with
  | [] => none
  | [_] => none
  | owner :: rest => some (owner, String.intercalate "/" rest)

/-! ## DESCRIPTION parsing (metadata.py _parse_description) -/

/-- Python str.splitlines restricted to newline separators. -/
def pySplitlines (s : String) : List String :=
  if s = "" then []
  else
    let pieces := splitStr (fun c => c = '\n') s
    if s.toList.getLast? = some '\n' then pieces.dropLast else pieces

/-- Joining of the accumulated continuation parts of one field: truthy
parts are stripped and joined with single spaces. -/
def joinFieldParts (parts : List String) : String :=
  String.intercalate " " ((parts.filter (fun p => p ≠ "")).map pyStrip)

/-- Flush the current field into the result dictionary. -/
def flushField (result : List (String × String)) (ck : Option String)
    (cv : List String) : List (String × String) :=
  match ck with
  | some k => pyDictSet result k (joinFieldParts cv)
  | none => result

/-- Source function _parse_description: a line oriented parser where
non-indented lines containing a colon begin a new field, other lines are
continuations, and blank lines flush the current field. -/
def parse_description (raw : String) : List (String × String) :=
  let step := fun (acc : List (String × String) × Option String × List String) (line : String) =>
    let (result, ck, cv) := acc
    if pyStrip line = "" then (flushField result ck cv, none, [])
    else if !(match line.toList with | c :: _ => c = ' ' | [] => false)
            && (line.toList.contains ':') then
      let key := (line.toList.takeWhile (fun c => c ≠ ':')).asString
      let value := (line.toList.drop (key.length + 1)).asString
      (flushField result ck cv, some (pyStrip key), [pyStrip value])
    else (result, ck, cv ++ [line])
  let final := (pySplitlines raw).foldl step ([], none, [])
  flushField final.1 final.2.1 final.2.2

/-- View of a parsed DESCRIPTION dictionary as a payload whose dependency
sections are free-form strings. -/
def payloadOfDesc (desc : List (String × String)) : Payload :=
  { depends := (match alookup desc "Depends" with | some s => .text s | none => .missing)
    imports := (match alookup desc "Imports" with | some s => .text s | none => .missing)
    linkingTo := (match alookup desc "LinkingTo" with | some s => .text s | none => .missing)
    suggests := (match alookup desc "Suggests" with | some s => .text s | none => .missing)
    version := alookup desc "Version" }

/-! ## Metadata provider (metadata.py MetadataProvider) -/

/-- Raw payload of one CRAN package: the versions map of the crandb
response. -/
structure CranRaw where
  versions : List (String × Payload)
deriving DecidableEq

/-- Raw merged payload of one Bioconductor release: name to payload. -/
abbrev BiocRaw := List (String × Payload)

/-- Raw descriptor of one GitHub fetch (fetch_github_description). -/
structure GhRaw where
  commit : String
  description : String
  ref : Option String := none
  url : Option String := none
  commit_timestamp : Option String := none
deriving DecidableEq

/-- Values held by the on-disk cache. -/
inductive RawData where
  | cranD (r : CranRaw)
  | biocD (r : BiocRaw)
  | ghD (owner repo commit : String) (ref : Option String)
        (timestamp url : Option String) (description : List (String × String))
deriving DecidableEq

/-- One invocation of an underlying fetch function, recorded for the
memoization claims. -/
inductive FetchKey where
  | cranK (pkg : String)
  | biocK (release : String)
  | githubK (owner repo : String) (ref token : Option String)
deriving DecidableEq

/-- The HTTP boundary: raw payloads per source, or a fetch error. -/
structure FetchEnv where
  cran : String → Except Unit CranRaw
  bioc : String → Except Unit BiocRaw
  github : String → String → Option String → Option String → Except Unit GhRaw

/-- In-process state of a MetadataProvider: the three memo dictionaries,
the on-disk cache, and an instrumentation log of fetch invocations. -/
structure ProviderState where
  cranMemo : List (String × List PackageVersion) := []
  biocMemo : List (String × List (String × PackageVersion)) := []
  githubMemo : List ((String × String × String) × PackageVersion) := []
  diskCache : List (List String × RawData) := []
  fetchLog : List FetchKey := []
deriving DecidableEq

/-- Cache path sanitisation: slashes inside a segment become "__". -/
def sanitizeSegments (segments : List String) : List String :=
  segments.map (fun s =>
    (s.toList.foldr (fun c acc => if c = '/' then '_' :: '_' :: acc else c :: acc) []).asString)

def cacheLoad (st : ProviderState) (segments : List String) : Option RawData :=
  alookup st.diskCache (sanitizeSegments segments)

def cacheStore (st : ProviderState) (segments : List String) (v : RawData) : ProviderState :=
  { st with diskCache := pyDictSet st.diskCache (sanitizeSegments segments) v }

/-- Descending version order used when the provider sorts CRAN versions
newest first (stable, reverse=True). -/
def pvDescLe (a b : PackageVersion) : Bool :=
  decide (0 ≤ compare_versions a.version b.version)

/-- Source method get_cran_versions: memo, then disk cache, then fetch;
the result is memoized, fetch failures are not. -/
def get_cran_versions (env : FetchEnv) (package : String) (st : ProviderState) :
    ProviderState × Except Unit (List PackageVersion) :=
  match alookup st.cranMemo package with
  | some vs => (st, .ok vs)
  | none =>
      let key := ["cran", package ++ ".json"]
      match cacheLoad st key with
      | some (.cranD raw) =>
          let versions := stableSort pvDescLe
            (raw.versions.map (fun vp => normalize_cran_payload package vp.2 vp.1))
          ({ st with cranMemo := pyDictSet st.cranMemo package versions }, .ok versions)
      | _ =>
          let st1 := { st with fetchLog := st.fetchLog ++ [FetchKey.cranK package] }
          match env.cran package with
          | .error e => (st1, .error e)
          | .ok raw =>
              let st2 := cacheStore st1 key (.cranD raw)
              let versions := stableSort pvDescLe
                (raw.versions.map (fun vp => normalize_cran_payload package vp.2 vp.1))
              ({ st2 with cranMemo := pyDictSet st2.cranMemo package versions }, .ok versions)

/-- Source method _load_bioc_release. -/
def load_bioc_release (env : FetchEnv) (release : String) (st : ProviderState) :
    ProviderState × Except Unit (List (String × PackageVersion)) :=
  match alookup st.biocMemo release with
  | some m => (st, .ok m)
  | none =>
      let key := ["bioconductor", release ++ ".json"]
      match cacheLoad st key with
      | some (.biocD raw) =>
          let normalized := raw.map (fun np => (np.1, normalize_bioc_payload np.1 np.2 release))
          ({ st with biocMemo := pyDictSet st.biocMemo release normalized }, .ok normalized)
      | _ =>
          let st1 := { st with fetchLog := st.fetchLog ++ [FetchKey.biocK release] }
          match env.bioc release with
          | .error e => (st1, .error e)
          | .ok raw =>
              let st2 := cacheStore st1 key (.biocD raw)
              let normalized := raw.map (fun np => (np.1, normalize_bioc_payload np.1 np.2 release))
              ({ st2 with biocMemo := pyDictSet st2.biocMemo release normalized }, .ok normalized)

/-- Source method get_bioconductor_versions. -/
def get_bioconductor_versions (env : FetchEnv) (package release : String)
    (st : ProviderState) : ProviderState × Except Unit (List PackageVersion) :=
  match load_bioc_release env release st with
  | (st1, .error e) => (st1, .error e)
  | (st1, .ok m) =>
      match alookup m package with
      | some pv => (st1, .ok [pv])
      | none => (st1, .error ())

/-- Source method get_github_version. Note that the github memo is
written at the end of the method but is never consulted before fetching:
every call invokes the fetcher. -/
def get_github_version (env : FetchEnv) (owner repo : String)
    (ref token : Option String) (st : ProviderState) :
    ProviderState × Except Unit PackageVersion :=
  let st1 := { st with fetchLog := st.fetchLog ++ [FetchKey.githubK owner repo ref token] }
  match env.github owner repo ref token with
  | .error e => (st1, .error e)
  | .ok raw =>
      let description := parse_description raw.description
      match alookup description "Package" with
      | none => (st1, .error ())
      | some package =>
          if package = "" then (st1, .error ())
          else
            let version := (alookup description "Version").getD "0.0.0"
            let built := build_dependencies (payloadOfDesc description)
            let pv : PackageVersion :=
              { name := package
                version := version
                repo := "GitHub"
                r_min := built.2
                dependencies := built.1
                source_url := raw.url
                published := raw.commit_timestamp
                metadata := [("commit", raw.commit), ("repo", owner ++ "/" ++ repo),
                             ("ref", raw.ref.getD "")] }
            let st2 := { st1 with
              githubMemo := pyDictSet st1.githubMemo (owner, repo, raw.commit) pv }
            let st3 := cacheStore st2
              ["github", owner ++ "__" ++ repo ++ "__" ++ raw.commit ++ ".json"]
              (.ghD owner repo raw.commit raw.ref raw.commit_timestamp raw.url description)
            (st3, .ok pv)

/-- Python string order (code point lexicographic) as a Bool comparator. -/
def strLe (a b : String) : Bool := strLt a b || a = b

/-- Source method bioconductor_r_version: the fixed static table. -/
def bioconductor_r_version (release : String) : Option String :=
  alookup BIOCONDUCTOR_R_MATRIX release

/-- Maximum key of a release table under Python string sort, none for an
empty table (generalisation of latest_bioconductor_release over its
table). -/
def latest_bioconductor_release_of (m : List (String × String)) : Option String :=
  if m = [] then none
  else (stableSort strLe (m.map Prod.fst)).getLast?

/-- Source method latest_bioconductor_release. -/
def latest_bioconductor_release : Option String :=
  latest_bioconductor_release_of BIOCONDUCTOR_R_MATRIX

/-- Source method get_versions: dispatch on the source tag. -/
def get_versions (env : FetchEnv) (package source : String)
    (bioc_release github_ref github_token : Option String) (st : ProviderState) :
    ProviderState × Except Unit (List PackageVersion) :=
  let src := pyLower source
  if src = "cran" then get_cran_versions env package st
  else if src = "bioc" || src = "bioconductor" then
    match bioc_release with
    | none => (st, .error ())
    | some rel => get_bioconductor_versions env package rel st
  else if src = "github" then
    match splitOwnerRepo package with
    | none => (st, .error ())
    | some or =>
        match get_github_version env or.1 or.2 github_ref github_token st with
        | (st1, .error e) => (st1, .error e)
        | (st1, .ok pv) => (st1, .ok [pv])
  else (st, .error ())

/-! ## Resolver (solver.py) -/

/-- Python or-chaining of optional values. -/
def optOr (a b : Option α) : Option α :=
  match a with
  | some x => some x
  | none => b

structure TargetContext where
  identifier : String
  package : String
  source : String
  constraints : List VersionConstraint := []
  bioc_release : Option String := none
  github_ref : Option String := none
  github_token : Option String := none
  github_slug : Option String := none
deriving DecidableEq

structure PackageRequest where
  package : String
  source : Option String
  constraints : List VersionConstraint
  required_by : List String
  bioc_release : Option String
  github_ref : Option String
  github_token : Option String
  github_slug : Option String := none
deriving DecidableEq

structure ResolutionState where
  candidate_r : String
  include_optional : Bool
  prefer_bioc_release : Option String
  assignments : List (String × PackageSelection) := []
  constraints : List (String × List VersionConstraint) := []
  visiting : List String := []
  failure_traces : List Conflict := []
deriving DecidableEq

/-- Resolver failure: a ResolutionError, or exhaustion of the explicit
recursion fuel (an artifact of the embedding; the runs considered in the
theorems below stay well within their fuel). -/
inductive SolveErr where
  | res (e : ResolutionError)
  | fuel
deriving DecidableEq

/-- The solver reads package versions through the provider; a frozen
provider is a pure function of the get_versions arguments. -/
structure SolverEnv where
  get_versions : String → String → Option String → Option String → Option String →
    Except Unit (List PackageVersion)

/-- Source method _load_versions_for_source. -/
def load_versions_for_source (env : SolverEnv) (prefer_bioc_release : Option String)
    (request : PackageRequest) (source : String) : Except Unit (List PackageVersion) :=
  let src := pyLower source
  if src = "cran" then env.get_versions request.package "cran" none none none
  else if src = "bioc" || src = "bioconductor" then
    match optOr request.bioc_release (optOr prefer_bioc_release latest_bioconductor_release) with
    | none => .error ()
    | some rel => env.get_versions request.package "bioc" (some rel) none none
  else if src = "github" then
    let slug := request.github_slug.getD request.package
    env.get_versions slug "github" none request.github_ref request.github_token
  else .error ()

/-- Source order for a request: the requested source if any, then cran
and bioc as fallbacks when not already present. -/
def source_order_of (request : PackageRequest) : List String :=
  let base : List String :=
    match request.source with
    | some s => if s = "" then [] else [s]
    | none => []
  let base2 := if "cran" ∈ base then base else base ++ ["cran"]
  if "bioc" ∈ base2 then base2 else base2 ++ ["bioc"]

/-- The two filters of _candidate_versions: drop versions whose R minimum
exceeds the candidate R, and versions failing the accumulated
constraints. -/
def versionPasses (candidate_r : String) (constraints : List VersionConstraint)
    (v : PackageVersion) : Bool :=
  let rminSkip :=
    match v.r_min with
    | some m => m ≠ "" && decide (compare_versions candidate_r m < 0)
    | none => false
  if rminSkip then false
  else if constraints ≠ [] && !(satisfies_all v.version constraints) then false
  else true

/-- Secondary sort key of _candidate_versions: index of the first source
whose 4-character prefix the lowercased repo name starts with. -/
def source_priority (source_order : List String) (v : PackageVersion) : Nat :=
  let repo := (pyLower v.repo).toList
  (source_order.findIdx? (fun src =>
    (src.toList.take 4).isPrefixOf repo)).getD source_order.length

def priorityLe (source_order : List String) (a b : PackageVersion) : Bool :=
  decide (source_priority source_order a ≤ source_priority source_order b)

/-- Source method _candidate_versions: gather versions per source
(skipping sources that fail to load), filter, deduplicate by
(repo, version) keeping first occurrences, then stable sort by version
descending and stably again by source priority. -/
def candidate_versions (env : SolverEnv) (prefer_bioc_release : Option String)
    (request : PackageRequest) (candidate_r : String)
    (constraints : List VersionConstraint) : List PackageVersion :=
  let order := source_order_of request
  let collected := order.foldl (fun acc src =>
    match load_versions_for_source env prefer_bioc_release request src with
    | .error _ => acc
    | .ok versions => acc ++ versions.filter (versionPasses candidate_r constraints)) []
  let deduped := dedupByKey (fun v => (v.repo, v.version)) collected []
  stableSort (priorityLe order) (stableSort pvDescLe deduped)

/-- Source method _infer_source. -/
def infer_source (parent : PackageSelection) (_dep : Dependency) : Option String :=
  if pyLower parent.repo = "bioconductor" then some "bioc"
  else if pyLower parent.repo = "github" then none
  else none

/-- Source method _infer_bioc_release. -/
def infer_bioc_release (prefer : Option String) (parent : PackageSelection)
    (_dep : Dependency) (parent_release : Option String) : Option String :=
  if pyLower parent.repo = "bioconductor" then
    optOr parent.bioc_release (optOr parent_release prefer)
  else none

/-- Selection built from a chosen candidate version. -/
def selectionOf (candidate : PackageVersion) : PackageSelection :=
  { package := candidate.name
    version := candidate.version
    repo := candidate.repo
    source_url := candidate.source_url
    dependencies := candidate.dependencies
    r_min := candidate.r_min
    bioc_release := candidate.bioc_release }

/-- Set insertion for the visiting set. -/
def visitAdd (v : List String) (p : String) : List String :=
  if p ∈ v then v else v ++ [p]

/-- Set removal for the visiting set. -/
def visitRemove : List String → String → List String
  | [], _ => []
  | x :: rest, p => if x = p then rest else x :: visitRemove rest p

/-- Python repr of a string with single quotes (ASCII contents), used in
the unsatisfied-constraints message. -/
def pyRepr (s : String) : String :=
  String.singleton (Char.ofNat 39) ++ s ++ String.singleton (Char.ofNat 39)

/-- Python repr of a list of strings. -/
def pyReprList (xs : List String) : String :=
  "[" ++ String.intercalate ", " (xs.map pyRepr) ++ "]"

/-- Message of the unsatisfied-new-constraints ResolutionError. -/
def unsatisfiedMessage (existing : PackageSelection)
    (requestConstraints : List VersionConstraint) : String :=
  "Selected version " ++ existing.version ++ " does not satisfy new constraints " ++
    pyReprList (requestConstraints.map (fun c => c.operator ++ c.version))

/-- Message of the R-minimum ResolutionError for an existing selection. -/
def rMinMessage (existing : PackageSelection) : String :=
  "Selected version " ++ existing.version ++ " requires R>=" ++ (existing.r_min.getD "")

/-- Message of the exhausted-candidates ResolutionError: the sorted,
deduplicated failure messages joined by commas, with a default when there
are none. -/
def exhaustionMessage (failures : List ResolutionError) : String :=
  let msgs := dedupByKey (fun m : String => m) (failures.map (fun f => f.message)) []
  let joined := String.intercalate ", " (stableSort strLe msgs)
  if joined = "" then "Unresolvable dependency chain" else joined

mutual

/-- Source method _resolve_package. All mutual functions consume one unit
of fuel per step; the Python recursion is unbounded. -/
def resolve_package (env : SolverEnv) :
    Nat → PackageRequest → ResolutionState →
    ResolutionState × Except SolveErr PackageSelection
  | 0, _, st => (st, .error .fuel)
  | fuel + 1, request, st =>
    let package := request.package
    if package ∈ st.visiting then
      match alookup st.assignments package with
      | some sel => (st, .ok sel)
      | none =>
          (st, .error (.res ⟨package, request.required_by, "Dependency cycle detected", none⟩))
    else
      let aggregated := (alookup st.constraints package).getD [] ++ request.constraints
      match alookup st.assignments package with
      | some existing =>
          if !(satisfies_all existing.version aggregated) then
            (st, .error (.res ⟨package, request.required_by,
              unsatisfiedMessage existing request.constraints, some [existing.version]⟩))
          else if (match existing.r_min with
                   | some m => m ≠ "" && decide (compare_versions st.candidate_r m < 0)
                   | none => false) then
            (st, .error (.res ⟨package, request.required_by,
              rMinMessage existing, some [existing.version]⟩))
          else
            ({ st with constraints := pyDictSet st.constraints package aggregated }, .ok existing)
      | none =>
          let candidates :=
            candidate_versions env st.prefer_bioc_release request st.candidate_r aggregated
          if candidates = [] then
            (st, .error (.res ⟨package, request.required_by,
              "No candidate versions satisfy constraints", some ["(none)"]⟩))
          else
            let previous := (alookup st.constraints package).getD []
            let st1 := { st with visiting := visitAdd st.visiting package }
            try_candidates env fuel request aggregated previous candidates candidates [] st1

/-- The candidate loop inside _resolve_package: tentatively assign, solve
the dependencies, and on a ResolutionError undo only this package's
assignment and continue with the next candidate. -/
def try_candidates (env : SolverEnv) :
    Nat → PackageRequest → List VersionConstraint → List VersionConstraint →
    List PackageVersion → List PackageVersion → List ResolutionError →
    ResolutionState → ResolutionState × Except SolveErr PackageSelection
  | 0, _, _, _, _, _, _, st => (st, .error .fuel)
  | fuel + 1, request, aggregated, previous, allCandidates, remaining, failures, st =>
    let package := request.package
    match remaining with
    | [] =>
        -- candidates exhausted: leave the visiting set, restore the
        -- previously accumulated constraints, and raise
        let st1 := { st with visiting := visitRemove st.visiting package }
        let st2 :=
          if previous ≠ [] then
            { st1 with constraints := pyDictSet st1.constraints package previous }
          else { st1 with constraints := pyDictDel st1.constraints package }
        (st2, .error (.res ⟨package, request.required_by, exhaustionMessage failures,
          some (allCandidates.map (fun c => c.repo ++ " " ++ c.version))⟩))
    | candidate :: rest =>
        let selection := selectionOf candidate
        let st1 := { st with
          assignments := pyDictSet st.assignments package selection
          constraints := pyDictSet st.constraints package aggregated }
        match resolve_dependencies env fuel selection request selection.dependencies st1 with
        | (st2, .ok _) =>
            ({ st2 with visiting := visitRemove st2.visiting package }, .ok selection)
        | (st2, .error (.res e)) =>
            let st3 := { st2 with assignments := pyDictDel st2.assignments package }
            try_candidates env fuel request aggregated previous allCandidates rest
              (failures ++ [e]) st3
        | (st2, .error .fuel) => (st2, .error .fuel)

/-- Source method _resolve_dependencies. -/
def resolve_dependencies (env : SolverEnv) :
    Nat → PackageSelection → PackageRequest → List Dependency →
    ResolutionState → ResolutionState × Except SolveErr Unit
  | 0, _, _, _, st => (st, .error .fuel)
  | fuel + 1, selection, request, deps, st =>
    match deps with
    | [] => (st, .ok ())
    | dependency :: rest =>
        if dependency.optional && !st.include_optional then
          resolve_dependencies env fuel selection request rest st
        else
          let child_request : PackageRequest :=
            { package := dependency.name
              source := infer_source selection dependency
              constraints := dependency.constraints
              required_by := request.required_by ++ [selection.package]
              bioc_release := infer_bioc_release st.prefer_bioc_release selection dependency
                request.bioc_release
              github_ref := none
              github_token := none }
          match resolve_package env fuel child_request st with
          | (st2, .ok _) => resolve_dependencies env fuel selection request rest st2
          | (st2, .error e) => (st2, .error e)

end

/-- Target processing loop of EnvironmentSolver.solve. -/
def solve_targets (env : SolverEnv) (fuel : Nat) :
    List TargetContext → ResolutionState → ResolutionState × Except SolveErr Unit
  | [], st => (st, .ok ())
  | target :: rest, st =>
      let request : PackageRequest :=
        { package := target.package
          source := some target.source
          constraints := target.constraints
          required_by := [target.identifier]
          bioc_release := target.bioc_release
          github_ref := target.github_ref
          github_token := target.github_token }
      match resolve_package env fuel request st with
      | (st2, .ok _) => solve_targets env fuel rest st2
      | (st2, .error e) => (st2, .error e)

/-- Source method EnvironmentSolver.solve. -/
def solve (env : SolverEnv) (include_optional : Bool) (prefer_bioc_release : Option String)
    (targets : List TargetContext) (candidate_r : String) (fuel : Nat) :
    Except SolveErr ResolutionPlan :=
  let init : ResolutionState :=
    { candidate_r := candidate_r
      include_optional := include_optional
      prefer_bioc_release := prefer_bioc_release }
  match solve_targets env fuel targets init with
  | (st, .ok _) => .ok { r_version := candidate_r, selections := st.assignments }
  | (_, .error e) => .error e

/-- Source function _bioc_release_requirements: collect the required R
series per referenced Bioconductor release, updating the targets'
releases in place. -/
def bioc_release_requirements (targets : List TargetContext)
    (default_release : Option String) :
    List (String × String) × List TargetContext :=
  targets.foldl (fun acc target =>
    if target.source = "bioc" || target.source = "bioconductor" then
      match optOr target.bioc_release (optOr default_release latest_bioconductor_release) with
      | none => (acc.1, acc.2 ++ [target])
      | some release =>
          match bioconductor_r_version release with
          | some required_r =>
              (pyDictSet acc.1 release required_r,
               acc.2 ++ [{ target with bioc_release := some release }])
          | none => (acc.1, acc.2 ++ [target])
    else (acc.1, acc.2 ++ [target]))
    ([], [])

/-- Failures of compute_resolution as observable in CPython: recording a
conflict raises TypeError, because solver.py passes the keyword argument
candidates to a Conflict whose dataclass field is named
candidates_considered; fuelOut is the embedding's fuel artifact. -/
inductive ComputeErr where
  | typeError
  | fuelOut
deriving DecidableEq

/-- Ascending RVersion order used by compute_resolution when sorting the
candidate R versions. -/
def rvLe (a b : RVersion) : Bool :=
  decide (compareComps a.components b.components ≤ 0)

/-- First-occurrence representatives of a list of RVersions under the
source's components-only equality: the elements of the Python set. -/
def rvDedup (l : List RVersion) : List RVersion :=
  dedupByKey (fun v => v.components) l []

/-- The R-candidate loop of compute_resolution: skip candidates below a
required Bioconductor R series, return the first successful solve, and on
a ResolutionError reach the Conflict construction site, which raises
TypeError in CPython (see ComputeErr). -/
def compute_loop (env : SolverEnv) (include_optional : Bool) (prefer : Option String)
    (targets : List TargetContext) (reqs : List (String × String)) (fuel : Nat)
    (conflicts : List Conflict) :
    List RVersion → Except ComputeErr (Option ResolutionPlan × List Conflict)
  | [] => .ok (none, conflicts)
  | c :: rest =>
      if reqs.any (fun rq => decide (compare_versions c.raw rq.2 < 0)) then
        compute_loop env include_optional prefer targets reqs fuel conflicts rest
      else
        match solve env include_optional prefer targets c.raw fuel with
        | .ok plan => .ok (some plan, conflicts)
        | .error (.res _) => .error .typeError
        | .error .fuel => .error .fuelOut

/-- Source function compute_resolution. The setEnum parameter models
CPython set construction and iteration: it must enumerate the
first-occurrence representatives of its input in some order (set
iteration order is hash dependent and not otherwise specified). -/
def compute_resolution (env : SolverEnv) (setEnum : List RVersion → List RVersion)
    (targets : List TargetContext) (include_optional : Bool) (prefer : Option String)
    (locked_r : Option String) (fuel : Nat) :
    Except ComputeErr (Option ResolutionPlan × List Conflict) :=
  let default_release := optOr prefer latest_bioconductor_release
  let br := bioc_release_requirements targets default_release
  let reqs := br.1
  let ctargets := br.2
  match locked_r with
  | some r =>
      match solve env include_optional prefer ctargets r fuel with
      | .ok plan => .ok (some plan, [])
      | .error (.res _) => .error .typeError
      | .error .fuel => .error .fuelOut
  | none =>
      let s1 := stableSort rvLe (setEnum (SUPPORTED_R_VERSIONS.map RVersion.of))
      let withReqs := s1 ++ reqs.map (fun rq => RVersion.of rq.2)
      let cands := stableSort rvLe (setEnum withReqs)
      compute_loop env include_optional prefer ctargets reqs fuel [] cands


/-! ## Order properties of the version comparison -/

theorem charToNat_inj {x y : Char} (h : x.toNat = y.toNat) : x = y :=
  Char.eq_of_val_eq (UInt32.eq_of_val_eq (Fin.ext h))

theorem charListLt_irrefl (l : List Char) : charListLt l l = false := by
  induction l with
  | nil => rfl
  | cons a as ih => simp [charListLt, ih]

theorem charListLt_asymm {a b : List Char} (h : charListLt a b = true) :
    charListLt b a = false := by
  induction a generalizing b with
  | nil =>
      cases b with
      | nil => simp [charListLt] at h
      | cons y ys => rfl
  | cons x xs ih =>
      cases b with
      | nil => simp [charListLt] at h
      | cons y ys =>
          simp only [charListLt, Bool.or_eq_true, Bool.and_eq_true, decide_eq_true_eq] at h
          simp only [charListLt, Bool.or_eq_false_iff, Bool.and_eq_false_iff,
            decide_eq_false_iff_not]
          rcases h with h | ⟨he, hr⟩
          · exact ⟨by omega, .inl (by omega)⟩
          · exact ⟨by omega, .inr (by simpa using ih hr)⟩

theorem charListLt_connex {a b : List Char} (hne : a ≠ b) :
    charListLt a b = true ∨ charListLt b a = true := by
  induction a generalizing b with
  | nil =>
      cases b with
      | nil => exact absurd rfl hne
      | cons y ys => left; rfl
  | cons x xs ih =>
      cases b with
      | nil => right; rfl
      | cons y ys =>
          simp only [charListLt, Bool.or_eq_true, Bool.and_eq_true, decide_eq_true_eq]
          by_cases hxy : x.toNat = y.toNat
          · have hx : x = y := charToNat_inj hxy
            subst hx
            have hne2 : xs ≠ ys := fun h => hne (by rw [h])
            rcases ih hne2 with h | h
            · exact .inl (.inr ⟨rfl, h⟩)
            · exact .inr (.inr ⟨rfl, h⟩)
          · rcases Nat.lt_or_ge x.toNat y.toNat with h | h
            · exact .inl (.inl h)
            · exact .inr (.inl (by omega))

theorem charListLt_trans {a b c : List Char} (h1 : charListLt a b = true)
    (h2 : charListLt b c = true) : charListLt a c = true := by
  induction a generalizing b c with
  | nil =>
      cases c with
      | nil =>
          cases b with
          | nil => simp [charListLt] at h1
          | cons y ys => simp [charListLt] at h2
      | cons z zs => rfl
  | cons x xs ih =>
      cases b with
      | nil => simp [charListLt] at h1
      | cons y ys =>
          cases c with
          | nil => simp [charListLt] at h2
          | cons z zs =>
              simp only [charListLt, Bool.or_eq_true, Bool.and_eq_true,
                decide_eq_true_eq] at h1 h2 ⊢
              rcases h1 with h1 | ⟨he1, hr1⟩
              · rcases h2 with h2 | ⟨he2, hr2⟩
                · exact .inl (by omega)
                · exact .inl (by omega)
              · rcases h2 with h2 | ⟨he2, hr2⟩
                · exact .inl (by omega)
                · exact .inr ⟨by omega, ih hr1 hr2⟩

theorem strLt_irrefl (s : String) : strLt s s = false := charListLt_irrefl _

theorem string_toList_inj {a b : String} (h : a.toList = b.toList) : a = b := by
  cases a; cases b
  exact congrArg String.mk (by simpa [String.toList] using h)

theorem strLt_connex {a b : String} (hne : a ≠ b) :
    strLt a b = true ∨ strLt b a = true := by
  have : a.toList ≠ b.toList := fun h => hne (string_toList_inj h)
  exact charListLt_connex this

theorem strLt_asymm {a b : String} (h : strLt a b = true) : strLt b a = false :=
  charListLt_asymm h

theorem strLt_trans {a b c : String} (h1 : strLt a b = true) (h2 : strLt b c = true) :
    strLt a c = true := charListLt_trans h1 h2

theorem cmpPair_self (x : Nat × String) : cmpPair x x = 0 := by
  simp [cmpPair]

theorem cmpPair_eq_zero_iff {x y : Nat × String} : cmpPair x y = 0 ↔ x = y := by
  constructor
  · intro h
    by_cases h1 : x.1 = y.1
    · by_cases h2 : x.2 = y.2
      · exact Prod.ext h1 h2
      · exfalso
        simp only [cmpPair, h1, h2, ite_true, ite_false, if_neg, not_true, not_false_iff] at h
        split at h <;> omega
    · exfalso
      simp only [cmpPair, h1, ite_true, ite_false, if_neg] at h
      split at h <;> omega
  · intro h; subst h; exact cmpPair_self x

theorem cmpPair_flip (x y : Nat × String) : cmpPair y x = -cmpPair x y := by
  by_cases h1 : x.1 = y.1
  · by_cases h2 : x.2 = y.2
    · have hxy : x = y := Prod.ext h1 h2
      subst hxy; simp [cmpPair_self]
    · have h2s : y.2 ≠ x.2 := fun h => h2 h.symm
      have e1 : ¬(y.1 ≠ x.1) := by omega
      have e2 : ¬(x.1 ≠ y.1) := by omega
      rcases strLt_connex h2 with h | h
      · have hf := strLt_asymm h
        simp [cmpPair, e1, e2, h2, h2s, h, hf]
      · have hf := strLt_asymm h
        simp [cmpPair, e1, e2, h2, h2s, h, hf]
  · have h1s : y.1 ≠ x.1 := fun h => h1 h.symm
    rcases Nat.lt_or_ge x.1 y.1 with h | h
    · have hny : ¬(y.1 < x.1) := by omega
      simp [cmpPair, h1, h1s, h, hny]
    · have hx : y.1 < x.1 := by omega
      have hnx : ¬(x.1 < y.1) := by omega
      simp [cmpPair, h1, h1s, hx, hnx]

theorem cmpPair_lt_trans {x y z : Nat × String} (h1 : cmpPair x y < 0)
    (h2 : cmpPair y z < 0) : cmpPair x z < 0 := by
  have lt_of : ∀ {a b : Nat × String}, cmpPair a b < 0 →
      a.1 < b.1 ∨ (a.1 = b.1 ∧ strLt a.2 b.2 = true) := by
    intro a b h
    by_cases ha : a.1 = b.1
    · by_cases hb : a.2 = b.2
      · have hab : a = b := Prod.ext ha hb
        subst hab; rw [cmpPair_self] at h; exact absurd h (by decide)
      · by_cases hs : strLt a.2 b.2 = true
        · exact .inr ⟨ha, hs⟩
        · exfalso
          have hsf : strLt a.2 b.2 = false := by simpa using hs
          simp [cmpPair, ha, hb, hsf] at h
    · by_cases hlt : a.1 < b.1
      · exact .inl hlt
      · exfalso
        simp [cmpPair, ha, hlt] at h
  have to_cmp : ∀ {a b : Nat × String},
      (a.1 < b.1 ∨ (a.1 = b.1 ∧ strLt a.2 b.2 = true)) → cmpPair a b < 0 := by
    intro a b h
    rcases h with h | ⟨he, hs⟩
    · have hne : a.1 ≠ b.1 := by omega
      simp [cmpPair, hne, h]
    · have h2 : a.2 ≠ b.2 := by
        intro hh; rw [hh] at hs; simp [strLt_irrefl] at hs
      simp [cmpPair, he, h2, hs]
  rcases lt_of h1 with ha | ⟨ha, hsa⟩ <;> rcases lt_of h2 with hb | ⟨hb, hsb⟩
  · exact to_cmp (.inl (by omega))
  · exact to_cmp (.inl (by omega))
  · exact to_cmp (.inl (by omega))
  · exact to_cmp (.inr ⟨by omega, strLt_trans hsa hsb⟩)

/-- Padding of a component list to a given length with (0, "") pairs. -/
def padTo (n : Nat) (l : List (Nat × String)) : List (Nat × String) :=
  l ++ List.replicate (n - l.length) (0, "")

/-- Plain lexicographic comparison of component lists of equal length
(the comparison the specification describes, after padding). -/
def lexSame : List (Nat × String) → List (Nat × String) → Int
  | [], _ => 0
  | _ :: _, [] => 0
  | x :: xs, y :: ys =>
      let c := cmpPair x y
      if c = 0 then lexSame xs ys else c

theorem padTo_nil (n : Nat) : padTo n [] = List.replicate n (0, "") := by
  simp [padTo]

theorem padTo_cons {n : Nat} {l : List (Nat × String)} (x : Nat × String)
    (_h : l.length ≤ n) : padTo (n + 1) (x :: l) = x :: padTo n l := by
  simp [padTo, List.length_cons]

theorem compareComps_nil_nil : compareComps [] [] = 0 := rfl

theorem lexSame_self : ∀ l : List (Nat × String), lexSame l l = 0
  | [] => rfl
  | x :: xs => by simp [lexSame, cmpPair_self, lexSame_self xs]

theorem compareComps_nil_cons (y : Nat × String) (ys : List (Nat × String)) :
    compareComps [] (y :: ys) =
      (if cmpPair (0, "") y = 0 then compareComps [] ys else cmpPair (0, "") y) := by
  simp [compareComps, cmpAgainstPad]

theorem compareComps_cons_nil (x : Nat × String) (xs : List (Nat × String)) :
    compareComps (x :: xs) [] =
      (if cmpPair x (0, "") = 0 then compareComps xs [] else cmpPair x (0, "")) := by
  cases xs with
  | nil => simp [compareComps, cmpAgainstPad]
  | cons a as => simp [compareComps, cmpAgainstPad]

theorem compareComps_cons_cons (x y : Nat × String) (xs ys : List (Nat × String)) :
    compareComps (x :: xs) (y :: ys) =
      (if cmpPair x y = 0 then compareComps xs ys else cmpPair x y) := rfl

/-- The zip_longest comparison equals the plain lexicographic comparison
after padding both sides to a common length. -/
theorem compareComps_eq_lexSame_pad :
    ∀ (n : Nat) (a b : List (Nat × String)), a.length ≤ n → b.length ≤ n →
      compareComps a b = lexSame (padTo n a) (padTo n b) := by
  intro n
  induction n with
  | zero =>
      intro a b ha hb
      have ha0 : a = [] := List.length_eq_zero.mp (Nat.le_zero.mp ha)
      have hb0 : b = [] := List.length_eq_zero.mp (Nat.le_zero.mp hb)
      subst ha0; subst hb0
      rfl
  | succ n ih =>
      intro a b ha hb
      cases a with
      | nil =>
          cases b with
          | nil =>
              rw [padTo_nil]
              simp [compareComps_nil_nil, lexSame_self]
          | cons y ys =>
              have hys : ys.length ≤ n := by
                simpa [List.length_cons, Nat.succ_le_succ_iff] using hb
              rw [padTo_cons y hys, padTo_nil, List.replicate_succ]
              simp only [lexSame]
              rw [compareComps_nil_cons]
              have := ih [] ys (by simp) hys
              rw [padTo_nil] at this
              rw [this]
      | cons x xs =>
          have hxs : xs.length ≤ n := by
            simpa [List.length_cons, Nat.succ_le_succ_iff] using ha
          cases b with
          | nil =>
              rw [padTo_cons x hxs, padTo_nil, List.replicate_succ]
              simp only [lexSame]
              rw [compareComps_cons_nil]
              have := ih xs [] hxs (by simp)
              rw [padTo_nil] at this
              rw [this]
          | cons y ys =>
              have hys : ys.length ≤ n := by
                simpa [List.length_cons, Nat.succ_le_succ_iff] using hb
              rw [padTo_cons x hxs, padTo_cons y hys]
              simp only [lexSame]
              rw [compareComps_cons_cons, ih xs ys hxs hys]

theorem lexSame_flip : ∀ a b : List (Nat × String), lexSame b a = -lexSame a b
  | [], [] => rfl
  | [], _ :: _ => rfl
  | _ :: _, [] => rfl
  | x :: xs, y :: ys => by
      simp only [lexSame]
      by_cases h : cmpPair x y = 0
      · have h2 : cmpPair y x = 0 := by rw [cmpPair_flip, h]; rfl
        simp [h, h2, lexSame_flip xs ys]
      · have h2 : cmpPair y x ≠ 0 := by
          rw [cmpPair_flip]; omega
        simp [h, h2, cmpPair_flip x y]

theorem lexSame_le_trans : ∀ a b c : List (Nat × String), a.length = b.length →
    b.length = c.length → lexSame a b ≤ 0 → lexSame b c ≤ 0 → lexSame a c ≤ 0 := by
  intro a
  induction a with
  | nil =>
      intro b c hab hbc h1 h2
      simp [lexSame]
  | cons x xs ih =>
      intro b c hab hbc h1 h2
      cases b with
      | nil => simp at hab
      | cons y ys =>
          cases c with
          | nil => simp at hbc
          | cons z zs =>
              have hab2 : xs.length = ys.length := by simpa using hab
              have hbc2 : ys.length = zs.length := by simpa using hbc
              simp only [lexSame] at h1 h2 ⊢
              by_cases e1 : cmpPair x y = 0
              · have hxy : x = y := cmpPair_eq_zero_iff.mp e1
                subst hxy
                rw [if_pos e1] at h1
                by_cases e2 : cmpPair x z = 0
                · rw [if_pos e2] at h2 ⊢
                  exact ih ys zs hab2 hbc2 h1 h2
                · rw [if_neg e2] at h2 ⊢
                  exact h2
              · rw [if_neg e1] at h1
                have hlt1 : cmpPair x y < 0 := by omega
                by_cases e2 : cmpPair y z = 0
                · have hyz : y = z := cmpPair_eq_zero_iff.mp e2
                  subst hyz
                  rw [if_neg e1]
                  exact h1
                · have hlt2 : cmpPair y z < 0 := by
                    rw [if_neg e2] at h2; omega
                  have hlt3 : cmpPair x z < 0 := cmpPair_lt_trans hlt1 hlt2
                  rw [if_neg (by omega)]
                  omega

theorem padTo_length {n : Nat} {l : List (Nat × String)} (h : l.length ≤ n) :
    (padTo n l).length = n := by
  simp [padTo]
  omega

theorem compareComps_flip (a b : List (Nat × String)) :
    compareComps b a = -compareComps a b := by
  have hn : a.length ≤ max a.length b.length := Nat.le_max_left _ _
  have hm : b.length ≤ max a.length b.length := Nat.le_max_right _ _
  rw [compareComps_eq_lexSame_pad (max a.length b.length) b a hm hn,
    compareComps_eq_lexSame_pad (max a.length b.length) a b hn hm]
  exact lexSame_flip _ _

theorem compareComps_self (a : List (Nat × String)) : compareComps a a = 0 := by
  have := compareComps_flip a a
  omega

theorem compareComps_le_trans {a b c : List (Nat × String)}
    (h1 : compareComps a b ≤ 0) (h2 : compareComps b c ≤ 0) :
    compareComps a c ≤ 0 := by
  have ha : a.length ≤ max (max a.length b.length) c.length := by omega
  have hb : b.length ≤ max (max a.length b.length) c.length := by omega
  have hc : c.length ≤ max (max a.length b.length) c.length := by omega
  rw [compareComps_eq_lexSame_pad _ a b ha hb] at h1
  rw [compareComps_eq_lexSame_pad _ b c hb hc] at h2
  rw [compareComps_eq_lexSame_pad _ a c ha hc]
  exact lexSame_le_trans _ _ _
    (by rw [padTo_length ha, padTo_length hb])
    (by rw [padTo_length hb, padTo_length hc]) h1 h2

theorem compareComps_le_total (a b : List (Nat × String)) :
    compareComps a b ≤ 0 ∨ compareComps b a ≤ 0 := by
  have := compareComps_flip a b
  omega

theorem compareComps_ge_trans {a b c : List (Nat × String)}
    (h1 : 0 ≤ compareComps a b) (h2 : 0 ≤ compareComps b c) :
    0 ≤ compareComps a c := by
  have f1 := compareComps_flip a b
  have f2 := compareComps_flip b c
  have f3 := compareComps_flip a c
  have := compareComps_le_trans (a := c) (b := b) (c := a) (by omega) (by omega)
  omega

/-! ## Stable sort and deduplication lemmas -/

theorem stableInsert_perm (le : α → α → Bool) (x : α) :
    ∀ l : List α, (stableInsert le x l).Perm (x :: l)
  | [] => List.Perm.refl _
  | y :: ys => by
      simp only [stableInsert]
      by_cases h : le y x = true
      · rw [if_pos h]
        exact ((stableInsert_perm le x ys).cons y).trans (List.Perm.swap x y ys)
      · rw [if_neg h]

theorem foldl_stableInsert_perm (le : α → α → Bool) :
    ∀ (l acc : List α), (l.foldl (fun acc x => stableInsert le x acc) acc).Perm (acc ++ l)
  | [], acc => by simp
  | x :: xs, acc => by
      simp only [List.foldl_cons]
      refine (foldl_stableInsert_perm le xs (stableInsert le x acc)).trans ?_
      have h1 : (stableInsert le x acc ++ xs).Perm ((x :: acc) ++ xs) :=
        (stableInsert_perm le x acc).append_right xs
      refine h1.trans ?_
      simpa using List.perm_middle.symm

theorem stableSort_perm (le : α → α → Bool) (l : List α) :
    (stableSort le l).Perm l := by
  simpa using foldl_stableInsert_perm le l []

theorem stableInsert_pairwise {le : α → α → Bool}
    (htot : ∀ a b, le a b = true ∨ le b a = true)
    (htrans : ∀ a b c, le a b = true → le b c = true → le a c = true)
    (x : α) : ∀ {l : List α}, List.Pairwise (fun a b => le a b = true) l →
      List.Pairwise (fun a b => le a b = true) (stableInsert le x l) := by
  intro l
  induction l with
  | nil => intro _; simp [stableInsert]
  | cons y ys ih =>
      intro hp
      rw [List.pairwise_cons] at hp
      simp only [stableInsert]
      by_cases h : le y x = true
      · rw [if_pos h]
        rw [List.pairwise_cons]
        constructor
        · intro z hz
          have hmem := (stableInsert_perm le x ys).mem_iff.mp hz
          rcases List.mem_cons.mp hmem with rfl | hz2
          · exact h
          · exact hp.1 z hz2
        · exact ih hp.2
      · rw [if_neg h]
        have hxy : le x y = true := by
          rcases htot x y with h2 | h2
          · exact h2
          · exact absurd h2 (by simp [h])
        rw [List.pairwise_cons]
        constructor
        · intro z hz
          rcases List.mem_cons.mp hz with rfl | hz2
          · exact hxy
          · exact htrans x y z hxy (hp.1 z hz2)
        · rw [List.pairwise_cons]
          exact ⟨hp.1, hp.2⟩

theorem stableSort_pairwise {le : α → α → Bool}
    (htot : ∀ a b, le a b = true ∨ le b a = true)
    (htrans : ∀ a b c, le a b = true → le b c = true → le a c = true)
    (l : List α) : List.Pairwise (fun a b => le a b = true) (stableSort le l) := by
  have main : ∀ (l acc : List α), List.Pairwise (fun a b => le a b = true) acc →
      List.Pairwise (fun a b => le a b = true)
        (l.foldl (fun acc x => stableInsert le x acc) acc) := by
    intro l
    induction l with
    | nil => intro acc h; simpa using h
    | cons x xs ih =>
        intro acc h
        simp only [List.foldl_cons]
        exact ih _ (stableInsert_pairwise htot htrans x h)
  exact main l [] (by simp)

theorem stableInsert_append_of_all {le : α → α → Bool} (x : α) :
    ∀ {l : List α}, (∀ y ∈ l, le y x = true) → stableInsert le x l = l ++ [x] := by
  intro l
  induction l with
  | nil => intro _; rfl
  | cons y ys ih =>
      intro h
      simp only [stableInsert]
      rw [if_pos (h y (by simp))]
      rw [ih (fun z hz => h z (by simp [hz]))]
      simp

theorem stableSort_eq_self {le : α → α → Bool} {l : List α}
    (hp : List.Pairwise (fun a b => le a b = true) l) : stableSort le l = l := by
  have main : ∀ (l acc : List α), List.Pairwise (fun a b => le a b = true) (acc ++ l) →
      l.foldl (fun acc x => stableInsert le x acc) acc = acc ++ l := by
    intro l
    induction l with
    | nil => intro acc _; simp
    | cons x xs ih =>
        intro acc h
        simp only [List.foldl_cons]
        have hall : ∀ y ∈ acc, le y x = true := by
          rw [List.pairwise_append] at h
          intro y hy
          exact h.2.2 y hy x (by simp)
        rw [stableInsert_append_of_all x hall]
        have h2 : List.Pairwise (fun a b => le a b = true) ((acc ++ [x]) ++ xs) := by
          simpa using h
        rw [ih (acc ++ [x]) h2]
        simp
  simpa using main l [] (by simpa using hp)

theorem pairwise_head_le {R : α → α → Prop} {x : α} {t : List α}
    (hp : List.Pairwise R (x :: t)) (hrefl : R x x) : ∀ y ∈ x :: t, R x y := by
  intro y hy
  rcases List.mem_cons.mp hy with rfl | hy2
  · exact hrefl
  · exact (List.pairwise_cons.mp hp).1 y hy2

theorem dedupByKey_subset [DecidableEq β] (key : α → β) :
    ∀ (l : List α) (seen : List β) (x : α), x ∈ dedupByKey key l seen → x ∈ l := by
  intro l
  induction l with
  | nil => intro seen x h; simp [dedupByKey] at h
  | cons a as ih =>
      intro seen x h
      simp only [dedupByKey] at h
      by_cases hk : key a ∈ seen
      · rw [if_pos hk] at h
        exact List.mem_cons_of_mem a (ih seen x h)
      · rw [if_neg hk] at h
        rcases List.mem_cons.mp h with rfl | h2
        · exact List.mem_cons_self _ _
        · exact List.mem_cons_of_mem a (ih _ x h2)

theorem dedupByKey_cover [DecidableEq β] (key : α → β) :
    ∀ (l : List α) (seen : List β) (x : α), x ∈ l →
      key x ∈ seen ∨ ∃ y ∈ dedupByKey key l seen, key y = key x := by
  intro l
  induction l with
  | nil => intro seen x h; simp at h
  | cons a as ih =>
      intro seen x h
      simp only [dedupByKey]
      by_cases hk : key a ∈ seen
      · rw [if_pos hk]
        rcases List.mem_cons.mp h with rfl | h2
        · exact .inl hk
        · exact ih seen x h2
      · rw [if_neg hk]
        rcases List.mem_cons.mp h with rfl | h2
        · exact .inr ⟨x, by simp, rfl⟩
        · rcases ih (key a :: seen) x h2 with hs | ⟨y, hy, hky⟩
          · rcases List.mem_cons.mp hs with he | hs2
            · exact .inr ⟨a, by simp, he.symm⟩
            · exact .inl hs2
          · exact .inr ⟨y, by simp [hy], hky⟩

theorem dedupByKey_eq_self [DecidableEq β] (key : α → β) :
    ∀ (l : List α) (seen : List β), (l.map key).Nodup →
      (∀ x ∈ l, key x ∉ seen) → dedupByKey key l seen = l := by
  intro l
  induction l with
  | nil => intro seen _ _; rfl
  | cons a as ih =>
      intro seen hnd hout
      simp only [dedupByKey]
      rw [if_neg (hout a (by simp))]
      congr 1
      apply ih
      · simpa using hnd.of_cons
      · intro x hx
        simp only [List.mem_cons, not_or]
        constructor
        · intro he
          have : key a ∈ as.map key := by
            rw [← he]; exact List.mem_map_of_mem key hx
          simp only [List.map_cons, List.nodup_cons] at hnd
          exact hnd.1 this
        · exact hout x (by simp [hx])

/-! ## Comparator bridge lemmas -/

theorem rvLe_total (a b : RVersion) : rvLe a b = true ∨ rvLe b a = true := by
  rcases compareComps_le_total a.components b.components with h | h
  · left; simpa [rvLe] using h
  · right; simpa [rvLe] using h

theorem rvLe_trans (a b c : RVersion) (h1 : rvLe a b = true) (h2 : rvLe b c = true) :
    rvLe a c = true := by
  simp only [rvLe, decide_eq_true_eq] at h1 h2 ⊢
  exact compareComps_le_trans h1 h2

theorem pvDescLe_total (a b : PackageVersion) : pvDescLe a b = true ∨ pvDescLe b a = true := by
  have := compareComps_flip (RVersion.of a.version).components (RVersion.of b.version).components
  simp only [pvDescLe, compare_versions, decide_eq_true_eq]
  omega

theorem pvDescLe_trans (a b c : PackageVersion) (h1 : pvDescLe a b = true)
    (h2 : pvDescLe b c = true) : pvDescLe a c = true := by
  simp only [pvDescLe, compare_versions, decide_eq_true_eq] at h1 h2 ⊢
  exact compareComps_ge_trans h1 h2

theorem priorityLe_total (so : List String) (a b : PackageVersion) :
    priorityLe so a b = true ∨ priorityLe so b a = true := by
  simp only [priorityLe, decide_eq_true_eq]
  omega

theorem priorityLe_trans (so : List String) (a b c : PackageVersion)
    (h1 : priorityLe so a b = true) (h2 : priorityLe so b c = true) :
    priorityLe so a c = true := by
  simp only [priorityLe, decide_eq_true_eq] at h1 h2 ⊢
  omega

theorem strLe_total (a b : String) : strLe a b = true ∨ strLe b a = true := by
  by_cases h : a = b
  · left; simp [strLe, h]
  · rcases strLt_connex h with hl | hl
    · left; simp [strLe, hl]
    · right; simp [strLe, hl]

theorem strLe_trans (a b c : String) (h1 : strLe a b = true) (h2 : strLe b c = true) :
    strLe a c = true := by
  simp only [strLe, Bool.or_eq_true, decide_eq_true_eq] at h1 h2 ⊢
  rcases h1 with h1 | h1
  · rcases h2 with h2 | h2
    · exact .inl (strLt_trans h1 h2)
    · subst h2; exact .inl h1
  · subst h1
    exact h2

/-! ## Claim theorems: version algebra and normalizers -/

/-- C7: version comparison is lexicographic over the parsed
(number, suffix) components with the shorter tuple padded by (0, ""), and
the five concrete orderings of the specification hold. -/
theorem C7_compare_versions_lexicographic_padded :
    (∀ a b : String, compare_versions a b =
      lexSame
        (padTo (max (RVersion.of a).components.length (RVersion.of b).components.length)
          (RVersion.of a).components)
        (padTo (max (RVersion.of a).components.length (RVersion.of b).components.length)
          (RVersion.of b).components)) ∧
    compare_versions "1.0" "1.0.0" = 0 ∧
    compare_versions "1.10" "1.9" = 1 ∧
    compare_versions "1.0-1" "1.0" = 1 ∧
    compare_versions "1.0a" "1.0b" = -1 ∧
    compare_versions "2.0.0" "2.0.0-1" = -1 := by
  refine ⟨?_, by decide, by decide, by decide, by decide, by decide⟩
  intro a b
  exact compareComps_eq_lexSame_pad _ _ _ (Nat.le_max_left _ _) (Nat.le_max_right _ _)

/-- C9: parse_constraint_expression splits on commas, records the first
operator-and-version-token match of each fragment, and silently skips
fragments with no match. -/
theorem C9_parse_constraint_expression_cases :
    parse_constraint_expression ">= 1.2.3, < 2.0" = [⟨">=", "1.2.3"⟩, ⟨"<", "2.0"⟩] ∧
    parse_constraint_expression "needs compilation, >= 1.0" = [⟨">=", "1.0"⟩] ∧
    parse_constraint_expression ">= 1.0 < 2.0" = [⟨">=", "1.0"⟩] ∧
    parse_constraint_expression "free-form note" = [] ∧
    parse_constraint_expression "" = [] := by
  decide

/-- C8: latest_bioconductor_release is the maximum key of the shipped
8-entry Bioconductor table, that maximum is "3.19" and is also maximal
under the version-comparison order, and the generalised function returns
none exactly for an empty table. -/
theorem C8_latest_bioconductor_release_max :
    latest_bioconductor_release = some "3.19" ∧
    ("3.19" ∈ BIOCONDUCTOR_R_MATRIX.map Prod.fst) ∧
    ((BIOCONDUCTOR_R_MATRIX.map Prod.fst).all
      (fun k => decide (compare_versions k "3.19" ≤ 0)) = true) ∧
    (∀ m : List (String × String), latest_bioconductor_release_of m = none ↔ m = []) := by
  refine ⟨by decide, by decide, by decide, ?_⟩
  intro m
  constructor
  · intro h
    by_contra hm
    rw [latest_bioconductor_release_of, if_neg hm] at h
    have hlen : (stableSort strLe (m.map Prod.fst)).length = (m.map Prod.fst).length :=
      (stableSort_perm _ _).length_eq
    cases hs : stableSort strLe (m.map Prod.fst) with
    | nil =>
        rw [hs] at hlen
        simp only [List.length_nil, List.length_map] at hlen
        exact hm (List.length_eq_zero.mp hlen.symm)
    | cons a t =>
        rw [hs] at h
        simp [List.getLast?] at h
  · intro h; subst h; rfl

/-- The amended description of the R requirement extraction: every
dependency entry named R contributes the version of its last >= or >
constraint, and across entries the strictly greatest contribution wins
with earlier entries kept on ties. -/
def rMinAmended (deps : List Dependency) : Option String :=
  (deps.filterMap (fun d =>
    if pyLower d.name = "r" then lastGeConstraint d.constraints else none)).foldl
    updateRReq none

theorem splitRAux_spec (deps : List Dependency) : ∀ acc : Option String,
    splitRAux deps acc =
      ((deps.filterMap (fun d =>
        if pyLower d.name = "r" then lastGeConstraint d.constraints else none)).foldl
        updateRReq acc,
       deps.filter (fun d => !(pyLower d.name = "r"))) := by
  induction deps with
  | nil => intro acc; rfl
  | cons d rest ih =>
      intro acc
      by_cases h : pyLower d.name = "r"
      · cases hg : lastGeConstraint d.constraints with
        | none => simp [splitRAux, h, hg, ih]
        | some v => simp [splitRAux, h, hg, ih]
      · simp [splitRAux, h, ih]

/-- C2 (amended): split_r_requirement keeps, within each R entry, the
version of the last >= or > constraint rather than the maximum, then
takes the strict maximum across entries; on the single entry
R (>= 4.0, >= 3.0) the result is "3.0". -/
theorem C2_split_r_requirement_amended :
    (∀ deps : List Dependency,
      split_r_requirement deps =
        (rMinAmended deps, deps.filter (fun d => !(pyLower d.name = "r")))) ∧
    split_r_requirement [⟨"R", [⟨">=", "4.0"⟩, ⟨">=", "3.0"⟩], "Depends", false, none⟩]
      = (some "3.0", []) := by
  refine ⟨?_, by decide⟩
  intro deps
  exact splitRAux_spec deps none

/-- C2 counterexample: on the dependency entry R (>= 4.0, >= 3.0) the
extracted r_min is "3.0", not the maximum "4.0" the claim states. -/
theorem C2_counterexample_last_not_max :
    (split_r_requirement
      [⟨"R", [⟨">=", "4.0"⟩, ⟨">=", "3.0"⟩], "Depends", false, none⟩]).1 = some "3.0" ∧
    (split_r_requirement
      [⟨"R", [⟨">=", "4.0"⟩, ⟨">=", "3.0"⟩], "Depends", false, none⟩]).1 ≠ some "4.0" := by
  decide

/-- C3: the base package filter lowercases each dependency name but the
BASE_R_PACKAGES set contains the capitalised entry "grDevices", so a
payload importing grDevices keeps it in deps, contrary to the documented
invariant; the thirteen lowercase base names and the pseudo-package R are
filtered as documented. -/
theorem C3_grDevices_filter_code_bug :
    build_dependencies { imports := .text "grDevices" } false
      = ([⟨"grDevices", [], "Imports", false, none⟩], none) ∧
    (pyLower "grDevices" ∈ BASE_R_PACKAGES) = false ∧
    ("grDevices" ∈ BASE_R_PACKAGES) = true ∧
    build_dependencies { imports := .text "stats" } false = ([], none) ∧
    build_dependencies { depends := .text "R (>= 3.5), methods, foo (>= 1.0)" } false
      = ([⟨"foo", [⟨">=", "1.0"⟩], "Depends", false, none⟩], some "3.5") := by
  decide

/-! ## Claim C4: provider memoization -/

theorem alookup_pyDictSet_self [DecidableEq κ] (l : List (κ × β)) (k : κ) (v : β) :
    alookup (pyDictSet l k v) k = some v := by
  induction l with
  | nil => simp [pyDictSet, alookup]
  | cons p rest ih =>
      by_cases h : p.1 = k
      · simp [pyDictSet, h, alookup]
      · simp [pyDictSet, h, alookup, ih]

/-- C4 (amended): within one provider, CRAN and Bioconductor lookups are
memoized — a second identical call after a successful one returns the
same result with unchanged state, hence without invoking the fetcher —
but get_github_version never consults its memo: every successful call
appends exactly one github fetch to the log. -/
theorem C4_memoization_amended :
    (∀ (env : FetchEnv) (pkg : String) (st st2 : ProviderState) (out : List PackageVersion),
      get_cran_versions env pkg st = (st2, .ok out) →
      get_cran_versions env pkg st2 = (st2, .ok out)) ∧
    (∀ (env : FetchEnv) (pkg rel : String) (st st2 : ProviderState) (out : List PackageVersion),
      get_bioconductor_versions env pkg rel st = (st2, .ok out) →
      get_bioconductor_versions env pkg rel st2 = (st2, .ok out)) ∧
    (∀ (env : FetchEnv) (owner repo : String) (ref token : Option String)
      (st st2 : ProviderState) (out : PackageVersion),
      get_github_version env owner repo ref token st = (st2, .ok out) →
      st2.fetchLog = st.fetchLog ++ [FetchKey.githubK owner repo ref token]) := by
  refine ⟨?_, ?_, ?_⟩
  · intro env pkg st st2 out h
    cases hmemo : alookup st.cranMemo pkg with
    | some vs =>
        simp only [get_cran_versions, hmemo] at h
        obtain ⟨rfl, houts⟩ := Prod.mk.injEq .. |>.mp h
        obtain rfl : vs = out := by simpa using houts
        simp only [get_cran_versions, hmemo]
    | none =>
        simp only [get_cran_versions, hmemo] at h
        cases hcache : cacheLoad st ["cran", pkg ++ ".json"] with
        | some raw =>
            cases raw with
            | cranD r =>
                simp only [hcache] at h
                obtain ⟨hst, houts⟩ := Prod.mk.injEq .. |>.mp h
                obtain rfl : _ = out := by simpa using houts
                subst hst
                simp only [get_cran_versions, alookup_pyDictSet_self]
            | biocD r =>
                simp only [hcache] at h
                cases henv : env.cran pkg with
                | error e => simp only [henv] at h; simp at h
                | ok raw2 =>
                    simp only [henv] at h
                    obtain ⟨hst, houts⟩ := Prod.mk.injEq .. |>.mp h
                    obtain rfl : _ = out := by simpa using houts
                    subst hst
                    simp only [get_cran_versions, alookup_pyDictSet_self]
            | ghD o r c rf ts u d =>
                simp only [hcache] at h
                cases henv : env.cran pkg with
                | error e => simp only [henv] at h; simp at h
                | ok raw2 =>
                    simp only [henv] at h
                    obtain ⟨hst, houts⟩ := Prod.mk.injEq .. |>.mp h
                    obtain rfl : _ = out := by simpa using houts
                    subst hst
                    simp only [get_cran_versions, alookup_pyDictSet_self]
        | none =>
            simp only [hcache] at h
            cases henv : env.cran pkg with
            | error e => simp only [henv] at h; simp at h
            | ok raw2 =>
                simp only [henv] at h
                obtain ⟨hst, houts⟩ := Prod.mk.injEq .. |>.mp h
                obtain rfl : _ = out := by simpa using houts
                subst hst
                simp only [get_cran_versions, alookup_pyDictSet_self]
  · intro env pkg rel st st2 out h
    simp only [get_bioconductor_versions] at h ⊢
    cases hload : load_bioc_release env rel st with
    | mk st1 res =>
        cases res with
        | error e => simp only [hload] at h; simp at h
        | ok m =>
            simp only [hload] at h
            cases hpkg : alookup m pkg with
            | none => simp only [hpkg] at h; simp at h
            | some pv =>
                simp only [hpkg] at h
                obtain ⟨hst, houts⟩ := Prod.mk.injEq .. |>.mp h
                obtain rfl : [pv] = out := by simpa using houts
                subst hst
                have hsecond : load_bioc_release env rel st1 = (st1, .ok m) := by
                  cases hmemo : alookup st.biocMemo rel with
                  | some m0 =>
                      simp only [load_bioc_release, hmemo] at hload
                      obtain ⟨h1, h2⟩ := Prod.mk.injEq .. |>.mp hload
                      obtain rfl : m0 = m := by simpa using h2
                      subst h1
                      simp only [load_bioc_release, hmemo]
                  | none =>
                      simp only [load_bioc_release, hmemo] at hload
                      cases hcache : cacheLoad st ["bioconductor", rel ++ ".json"] with
                      | some raw =>
                          cases raw with
                          | biocD r =>
                              simp only [hcache] at hload
                              obtain ⟨h1, h2⟩ := Prod.mk.injEq .. |>.mp hload
                              obtain rfl : _ = m := by simpa using h2
                              subst h1
                              simp only [load_bioc_release, alookup_pyDictSet_self]
                          | cranD r =>
                              simp only [hcache] at hload
                              cases henv : env.bioc rel with
                              | error e => simp only [henv] at hload; simp at hload
                              | ok raw2 =>
                                  simp only [henv] at hload
                                  obtain ⟨h1, h2⟩ := Prod.mk.injEq .. |>.mp hload
                                  obtain rfl : _ = m := by simpa using h2
                                  subst h1
                                  simp only [load_bioc_release, alookup_pyDictSet_self]
                          | ghD o r c rf ts u d =>
                              simp only [hcache] at hload
                              cases henv : env.bioc rel with
                              | error e => simp only [henv] at hload; simp at hload
                              | ok raw2 =>
                                  simp only [henv] at hload
                                  obtain ⟨h1, h2⟩ := Prod.mk.injEq .. |>.mp hload
                                  obtain rfl : _ = m := by simpa using h2
                                  subst h1
                                  simp only [load_bioc_release, alookup_pyDictSet_self]
                      | none =>
                          simp only [hcache] at hload
                          cases henv : env.bioc rel with
                          | error e => simp only [henv] at hload; simp at hload
                          | ok raw2 =>
                              simp only [henv] at hload
                              obtain ⟨h1, h2⟩ := Prod.mk.injEq .. |>.mp hload
                              obtain rfl : _ = m := by simpa using h2
                              subst h1
                              simp only [load_bioc_release, alookup_pyDictSet_self]
                simp only [hsecond, hpkg]
  · intro env owner repo ref token st st2 out h
    simp only [get_github_version] at h
    cases henv : env.github owner repo ref token with
    | error e => simp only [henv] at h; simp at h
    | ok raw =>
        simp only [henv] at h
        cases hpkg : alookup (parse_description raw.description) "Package" with
        | none => simp only [hpkg] at h; simp at h
        | some package =>
            simp only [hpkg] at h
            by_cases hempty : package = ""
            · rw [if_pos hempty] at h
              simp at h
            · rw [if_neg hempty] at h
              obtain ⟨hst, _⟩ := Prod.mk.injEq .. |>.mp h
              subst hst
              rfl

/-- A concrete GitHub descriptor used in the provider examples. -/
def ghRawExample : GhRaw :=
  { commit := "abc123", description := "Package: MyPkg\nVersion: 1.0\n",
    ref := some "main", url := some "u", commit_timestamp := some "t" }

/-- A concrete fetch environment with one CRAN package, one Bioconductor
release and one GitHub repository. -/
def fetchEnvExample : FetchEnv :=
  { cran := fun pkg => if pkg = "p" then .ok ⟨[("1.0", {})]⟩ else .error ()
    bioc := fun rel =>
      if rel = "3.17" then .ok [("limma", { version := some "3.56.0" })] else .error ()
    github := fun o r _ _ => if o = "o" && r = "r" then .ok ghRawExample else .error () }

/-- The normalized GitHub package of ghRawExample. -/
def ghPvExample : PackageVersion :=
  { name := "MyPkg", version := "1.0", repo := "GitHub", r_min := none,
    dependencies := [], bioc_release := none, source_url := some "u",
    metadata := [("commit", "abc123"), ("repo", "o/r"), ("ref", "main")],
    published := some "t" }

/-- Provider state after one successful GitHub fetch of o/r. -/
def ghStExample : ProviderState :=
  { cranMemo := [], biocMemo := [],
    githubMemo := [(("o", "r", "abc123"), ghPvExample)],
    diskCache := [(["github", "o__r__abc123.json"],
      RawData.ghD "o" "r" "abc123" (some "main") (some "t") (some "u")
        [("Package", "MyPkg"), ("Version", "1.0")])],
    fetchLog := [FetchKey.githubK "o" "r" none none] }

/-- Provider state after a second successful GitHub fetch of o/r. -/
def ghStExample2 : ProviderState :=
  { ghStExample with
    fetchLog := [FetchKey.githubK "o" "r" none none, FetchKey.githubK "o" "r" none none] }

/-- C4 counterexample: two successive successful get_github_version calls
with identical arguments invoke the GitHub fetcher twice; the second call
does not return a memoized result without fetching. -/
theorem C4_counterexample_github_refetched :
    get_github_version fetchEnvExample "o" "r" none none {} = (ghStExample, .ok ghPvExample) ∧
    get_github_version fetchEnvExample "o" "r" none none ghStExample
      = (ghStExample2, .ok ghPvExample) ∧
    ghStExample2.fetchLog.length = 2 := by
  refine ⟨by rfl, by rfl, by rfl⟩

/-- The normalized CRAN package of fetchEnvExample. -/
def cranPvExample : PackageVersion :=
  { name := "p", version := "1.0", repo := "CRAN", r_min := none,
    dependencies := [], bioc_release := none,
    source_url := some "https://cran.r-project.org/package=p",
    metadata := [], published := none }

/-- Provider state after one successful CRAN fetch of p. -/
def cranStExample : ProviderState :=
  { cranMemo := [("p", [cranPvExample])], biocMemo := [], githubMemo := [],
    diskCache := [(["cran", "p.json"], RawData.cranD ⟨[("1.0", {})]⟩)],
    fetchLog := [FetchKey.cranK "p"] }

/-- Witness for C4_memoization_amended at a concrete provider: the first
CRAN call fetches once, and by the theorem the second call returns the
memoized result with unchanged state. -/
theorem C4_memoization_amended_witness :
    get_cran_versions fetchEnvExample "p" cranStExample
      = (cranStExample, .ok [cranPvExample]) :=
  C4_memoization_amended.1 fetchEnvExample "p" {} cranStExample [cranPvExample] (by rfl)

/-! ## Claim C10: frame effect of an abandoned candidate -/

set_option maxRecDepth 100000

/-- Package P version 2.0: depends on Q and on the unavailable X. -/
def pvP2 : PackageVersion :=
  { name := "P", version := "2.0", repo := "CRAN", r_min := none,
    dependencies := [⟨"Q", [], "Imports", false, none⟩, ⟨"X", [], "Imports", false, none⟩] }

/-- Package P version 1.0: no dependencies. -/
def pvP1 : PackageVersion :=
  { name := "P", version := "1.0", repo := "CRAN", r_min := none, dependencies := [] }

/-- Package Q version 1.0: no dependencies. -/
def pvQ1 : PackageVersion :=
  { name := "Q", version := "1.0", repo := "CRAN", r_min := none, dependencies := [] }

/-- Frozen provider for the frame-effect scenario: P and Q on CRAN, X
unavailable everywhere. -/
def solverEnvP : SolverEnv := ⟨fun pkg src _ _ _ =>
  if src = "cran" && pkg = "P" then .ok [pvP2, pvP1]
  else if src = "cran" && pkg = "Q" then .ok [pvQ1]
  else .error ()⟩

def targetP : TargetContext := { identifier := "P", package := "P", source := "cran" }

/-- C10: after the tentative candidate P 2.0 is abandoned because its
dependency X cannot be resolved, only the assignment of P itself is
removed: the selection created for Q during the failed attempt stays, the
solve succeeds with P 1.0, and the returned plan contains a selection for
Q although no selected candidate in the plan depends on Q. -/
theorem C10_failed_candidate_keeps_dependency_assignments :
    solve solverEnvP false none [targetP] "4.0.0" 20
      = .ok { r_version := "4.0.0",
              selections := [("Q", selectionOf pvQ1), ("P", selectionOf pvP1)] } ∧
    ([("Q", selectionOf pvQ1), ("P", selectionOf pvP1)].all
      (fun s => s.2.dependencies.all (fun d => d.name ≠ "Q")) = true) ∧
    pvP2.dependencies.map Dependency.name = ["Q", "X"] := by
  refine ⟨by decide, by decide, by decide⟩

/-! ## Claim C1: unsatisfiable constraint and the Conflict record -/

/-- The only available version of foo. -/
def pvFoo : PackageVersion :=
  { name := "foo", version := "1.0", repo := "CRAN", r_min := none, dependencies := [] }

/-- Frozen provider with foo 1.0 on CRAN only. -/
def solverEnvFoo : SolverEnv := ⟨fun pkg src _ _ _ =>
  if src = "cran" && pkg = "foo" then .ok [pvFoo] else .error ()⟩

/-- Target foo with the unsatisfiable constraint >= 9.9. -/
def targetFoo : TargetContext :=
  { identifier := "foo", package := "foo", source := "cran",
    constraints := [⟨">=", "9.9"⟩] }

/-- C1: with only foo 1.0 available and the constraint >= 9.9, every
per-R solve raises the ResolutionError whose candidates list is
["(none)"]; compute_resolution then reaches the Conflict construction
site, which in CPython raises TypeError because solver.py passes the
keyword argument candidates while the models.Conflict dataclass field is
named candidates_considered. The claimed (null plan, one Conflict) return
is never produced. -/
theorem C1_conflict_record_type_error :
    (∀ (r : String) (fuel : Nat), 2 ≤ fuel →
      solve solverEnvFoo false none [targetFoo] r fuel
        = .error (.res ⟨"foo", ["foo"], "No candidate versions satisfy constraints",
            some ["(none)"]⟩)) ∧
    (∀ setEnum : List RVersion → List RVersion, (∀ l, (setEnum l).Perm (rvDedup l)) →
      ∀ fuel : Nat, 2 ≤ fuel →
      compute_resolution solverEnvFoo setEnum [targetFoo] false none none fuel
        = .error .typeError) := by
  have hsolve : ∀ (r : String) (fuel : Nat), 2 ≤ fuel →
      solve solverEnvFoo false none [targetFoo] r fuel
        = .error (.res ⟨"foo", ["foo"], "No candidate versions satisfy constraints",
            some ["(none)"]⟩) := by
    intro r fuel hf
    obtain ⟨k, rfl⟩ := Nat.exists_eq_add_of_le hf
    have h2 : 2 + k = (k + 1) + 1 := by omega
    rw [h2]
    rfl
  refine ⟨hsolve, ?_⟩
  intro setEnum hE fuel hf
  have hdedup : rvDedup (SUPPORTED_R_VERSIONS.map RVersion.of)
      = SUPPORTED_R_VERSIONS.map RVersion.of := by decide
  have hperm1 : (setEnum (SUPPORTED_R_VERSIONS.map RVersion.of)).Perm
      (SUPPORTED_R_VERSIONS.map RVersion.of) := by
    rw [← hdedup]; exact hE _
  have hlen1 : (stableSort rvLe (setEnum (SUPPORTED_R_VERSIONS.map RVersion.of))).length = 18 := by
    rw [(stableSort_perm _ _).length_eq, hperm1.length_eq]
    decide
  -- the final candidate list is nonempty
  have hmain : ∀ cands : List RVersion, cands ≠ [] →
      compute_loop solverEnvFoo false none [targetFoo] [] fuel [] cands
        = .error .typeError := by
    intro cands hne
    cases cands with
    | nil => exact absurd rfl hne
    | cons c rest =>
        simp only [compute_loop, List.any_nil, Bool.false_eq_true, if_false]
        rw [hsolve c.raw fuel hf]
  show compute_loop solverEnvFoo false none [targetFoo] [] fuel []
      (stableSort rvLe (setEnum (stableSort rvLe
        (setEnum (SUPPORTED_R_VERSIONS.map RVersion.of)) ++ []))) = .error .typeError
  apply hmain
  intro hnil
  have hs1 : (stableSort rvLe (setEnum (SUPPORTED_R_VERSIONS.map RVersion.of)) ++
      ([] : List RVersion)).length = 18 := by
    simpa using hlen1
  have hperm2 := hE (stableSort rvLe (setEnum (SUPPORTED_R_VERSIONS.map RVersion.of)) ++ [])
  have hlen2 : (stableSort rvLe (setEnum (stableSort rvLe
      (setEnum (SUPPORTED_R_VERSIONS.map RVersion.of)) ++ []))).length
      = (rvDedup (stableSort rvLe (setEnum (SUPPORTED_R_VERSIONS.map RVersion.of)) ++ [])).length := by
    rw [(stableSort_perm _ _).length_eq, hperm2.length_eq]
  rw [hnil] at hlen2
  -- the deduplicated list of a list of length 18 is nonempty
  cases hc : stableSort rvLe (setEnum (SUPPORTED_R_VERSIONS.map RVersion.of)) ++ ([] : List RVersion) with
  | nil => rw [hc] at hs1; simp at hs1
  | cons a t =>
      rw [hc] at hlen2
      simp [rvDedup, dedupByKey] at hlen2

/-! ## Claim C5: Bioconductor release pins the R series -/

/-- The single limma version in Bioconductor release 3.17. -/
def pvLimma : PackageVersion :=
  { name := "limma", version := "3.56.0", repo := "Bioconductor", r_min := none,
    dependencies := [], bioc_release := some "3.17" }

/-- Frozen provider serving limma from Bioconductor release 3.17 only. -/
def solverEnvBioc : SolverEnv := ⟨fun pkg src rel _ _ =>
  if src = "bioc" && pkg = "limma" && rel = some "3.17" then .ok [pvLimma] else .error ()⟩

def targetLimma : TargetContext :=
  { identifier := "limma", package := "limma", source := "bioc",
    bioc_release := some "3.17" }

/-- The limma solve succeeds for every candidate R (limma carries no R
minimum), returning the plan with that R and the single selection. -/
theorem limma_solve (r : String) (fuel : Nat) (hf : 3 ≤ fuel) :
    solve solverEnvBioc false none [targetLimma] r fuel
      = .ok { r_version := r, selections := [("limma", selectionOf pvLimma)] } := by
  obtain ⟨k, rfl⟩ := Nat.exists_eq_add_of_le hf
  have h3 : 3 + k = ((k + 1) + 1) + 1 := by omega
  rw [h3]
  rfl

/-- The multiset of R candidates in the limma scenario: the 18 supported
versions and the appended required series 4.3. -/
def allowedRVs : List RVersion :=
  (SUPPORTED_R_VERSIONS.map RVersion.of) ++ [RVersion.of "4.3"]

theorem allowedRVs_wf : ∀ x ∈ allowedRVs, RVersion.of x.raw = x := by decide

theorem allowedRVs_comps43 : ∀ x ∈ allowedRVs,
    compareComps x.components (RVersion.of "4.3").components = 0 →
    x.raw = "4.3" ∨ x.raw = "4.3.0" := by decide

theorem supported_rvDedup :
    rvDedup (SUPPORTED_R_VERSIONS.map RVersion.of) = SUPPORTED_R_VERSIONS.map RVersion.of := by
  decide

/-- The R-candidate loop in the limma scenario: all candidates strictly
below 4.3 are skipped, and the first remaining candidate compares equal
to 4.3 and yields the plan. -/
theorem limma_compute_loop (fuel : Nat) (hf : 3 ≤ fuel) :
    ∀ cands : List RVersion,
    List.Pairwise (fun a b => rvLe a b = true) cands →
    (∀ x ∈ cands, x ∈ allowedRVs) →
    (∃ x ∈ cands, x.components = (RVersion.of "4.3").components) →
    ∃ rv : String,
      compute_loop solverEnvBioc false none [targetLimma] [("3.17", "4.3")] fuel [] cands
        = .ok (some { r_version := rv, selections := [("limma", selectionOf pvLimma)] }, [])
      ∧ compare_versions rv "4.3" = 0 ∧ (rv = "4.3" ∨ rv = "4.3.0") := by
  intro cands
  induction cands with
  | nil =>
      intro _ _ hex
      simp at hex
  | cons c rest ih =>
      intro hpair hmem hex
      have hwfc : RVersion.of c.raw = c := allowedRVs_wf c (hmem c (by simp))
      by_cases hlt : compare_versions c.raw "4.3" < 0
      · have hcond : ([("3.17", "4.3")].any fun rq =>
            decide (compare_versions c.raw rq.2 < 0)) = true := by
          simp [hlt]
        have hex2 : ∃ x ∈ rest, x.components = (RVersion.of "4.3").components := by
          rcases hex with ⟨x, hx, hcx⟩
          rcases List.mem_cons.mp hx with rfl | hx2
          · exfalso
            have hz : compare_versions x.raw "4.3" = 0 := by
              show compareComps (RVersion.of x.raw).components
                (RVersion.of "4.3").components = 0
              rw [hwfc, hcx]
              exact compareComps_self _
            omega
          · exact ⟨x, hx2, hcx⟩
        have hres := ih (List.pairwise_cons.mp hpair).2
          (fun x hx => hmem x (by simp [hx])) hex2
        simpa [compute_loop, hcond] using hres
      · have hcond : ([("3.17", "4.3")].any fun rq =>
            decide (compare_versions c.raw rq.2 < 0)) = false := by
          simp [hlt]
        have hle : compare_versions c.raw "4.3" ≤ 0 := by
          rcases hex with ⟨x, hx, hcx⟩
          rcases List.mem_cons.mp hx with rfl | hx2
          · show compareComps (RVersion.of x.raw).components
              (RVersion.of "4.3").components ≤ 0
            rw [hwfc, hcx]
            exact le_of_eq (compareComps_self _)
          · have hlex : rvLe c x = true := (List.pairwise_cons.mp hpair).1 x hx2
            simp only [rvLe, decide_eq_true_eq] at hlex
            show compareComps (RVersion.of c.raw).components
              (RVersion.of "4.3").components ≤ 0
            rw [hwfc, ← hcx]
            exact hlex
        have heq : compare_versions c.raw "4.3" = 0 := by omega
        refine ⟨c.raw, ?_, heq, ?_⟩
        · simp only [compute_loop, hcond, Bool.false_eq_true, if_false]
          rw [limma_solve c.raw fuel hf]
        · apply allowedRVs_comps43 c (hmem c (by simp))
          have : compare_versions c.raw "4.3" =
              compareComps c.components (RVersion.of "4.3").components := by
            show compareComps (RVersion.of c.raw).components _ =
              compareComps c.components _
            rw [hwfc]
          omega

/-- C5 (amended): for every legitimate set enumeration, compute_resolution
on the limma 3.17 target skips every candidate strictly below the
required series 4.3 and returns the plan of the first candidate comparing
equal to 4.3; its r_version is either "4.3" or "4.3.0", the choice
depending on the hash-dependent set iteration order. The solve itself
would succeed at the skipped R 3.6.0, so the 4.3 result is due to the
skipping. -/
theorem C5_bioconductor_pins_r_amended (setEnum : List RVersion → List RVersion)
    (hE : ∀ l, (setEnum l).Perm (rvDedup l)) (fuel : Nat) (hf : 3 ≤ fuel) :
    (∃ rv : String,
      compute_resolution solverEnvBioc setEnum [targetLimma] false none none fuel
        = .ok (some { r_version := rv, selections := [("limma", selectionOf pvLimma)] }, [])
      ∧ compare_versions rv "4.3" = 0 ∧ (rv = "4.3" ∨ rv = "4.3.0")) ∧
    solve solverEnvBioc false none [targetLimma] "3.6.0" fuel
      = .ok { r_version := "3.6.0", selections := [("limma", selectionOf pvLimma)] } := by
  refine ⟨?_, limma_solve "3.6.0" fuel hf⟩
  show ∃ rv : String,
      compute_loop solverEnvBioc false none [targetLimma] [("3.17", "4.3")] fuel []
        (stableSort rvLe (setEnum (stableSort rvLe
          (setEnum (SUPPORTED_R_VERSIONS.map RVersion.of)) ++ [RVersion.of "4.3"])))
        = .ok (some { r_version := rv, selections := [("limma", selectionOf pvLimma)] }, [])
      ∧ compare_versions rv "4.3" = 0 ∧ (rv = "4.3" ∨ rv = "4.3.0")
  apply limma_compute_loop fuel hf
  · exact stableSort_pairwise rvLe_total rvLe_trans _
  · intro x hx
    have h1 : x ∈ setEnum (stableSort rvLe
        (setEnum (SUPPORTED_R_VERSIONS.map RVersion.of)) ++ [RVersion.of "4.3"]) :=
      ((stableSort_perm _ _).mem_iff).mp hx
    have h2 : x ∈ rvDedup (stableSort rvLe
        (setEnum (SUPPORTED_R_VERSIONS.map RVersion.of)) ++ [RVersion.of "4.3"]) :=
      ((hE _).mem_iff).mp h1
    have h3 := dedupByKey_subset (fun v : RVersion => v.components) _ _ _ h2
    rcases List.mem_append.mp h3 with h4 | h4
    · have h5 : x ∈ setEnum (SUPPORTED_R_VERSIONS.map RVersion.of) :=
        ((stableSort_perm _ _).mem_iff).mp h4
      have h6 : x ∈ rvDedup (SUPPORTED_R_VERSIONS.map RVersion.of) :=
        ((hE _).mem_iff).mp h5
      rw [supported_rvDedup] at h6
      exact List.mem_append.mpr (.inl h6)
    · exact List.mem_append.mpr (.inr h4)
  · have hv : RVersion.of "4.3" ∈ stableSort rvLe
        (setEnum (SUPPORTED_R_VERSIONS.map RVersion.of)) ++ [RVersion.of "4.3"] :=
      List.mem_append.mpr (.inr (by simp))
    rcases dedupByKey_cover (fun v : RVersion => v.components) _ [] _ hv with hseen | ⟨y, hy, hky⟩
    · simp at hseen
    · have h1 : y ∈ setEnum (stableSort rvLe
          (setEnum (SUPPORTED_R_VERSIONS.map RVersion.of)) ++ [RVersion.of "4.3"]) :=
        ((hE _).mem_iff).mpr hy
      have h2 := ((stableSort_perm rvLe _).mem_iff).mpr h1
      exact ⟨y, h2, hky⟩

/-- Witness for C5_bioconductor_pins_r_amended at the identity-order set
enumeration and fuel 5. -/
theorem C5_bioconductor_pins_r_amended_witness :
    (∃ rv : String,
      compute_resolution solverEnvBioc rvDedup [targetLimma] false none none 5
        = .ok (some { r_version := rv, selections := [("limma", selectionOf pvLimma)] }, [])
      ∧ compare_versions rv "4.3" = 0 ∧ (rv = "4.3" ∨ rv = "4.3.0")) ∧
    solve solverEnvBioc false none [targetLimma] "3.6.0" 5
      = .ok { r_version := "3.6.0", selections := [("limma", selectionOf pvLimma)] } :=
  C5_bioconductor_pins_r_amended rvDedup (fun _ => List.Perm.refl _) 5 (by omega)

/-- A legitimate set enumeration that lists the representatives in
reverse: under it the tied pair 4.3 and 4.3.0 sorts with "4.3" first. -/
def revEnum (l : List RVersion) : List RVersion := (rvDedup l).reverse

/-- C5 counterexample: under the reverse set enumeration the returned
plan has r_version "4.3", not "4.3.0" as claimed; the claimed value is
therefore not an invariant of the code but an artifact of one particular
set iteration order. -/
theorem C5_counterexample_r_version_tie :
    (∀ l, (revEnum l).Perm (rvDedup l)) ∧
    compute_resolution solverEnvBioc revEnum [targetLimma] false none none 5
      = .ok (some { r_version := "4.3", selections := [("limma", selectionOf pvLimma)] }, []) ∧
    ("4.3" : String) ≠ "4.3.0" := by
  refine ⟨fun l => (rvDedup l).reverse_perm, by decide, by decide⟩

/-! ## Claim C6: mutual dependency cycle -/

/-- A version of package A depending on B with no constraints. -/
def pvA (p : String × Option String) : PackageVersion :=
  { name := "A", version := p.1, repo := "CRAN", r_min := p.2,
    dependencies := [⟨"B", [], "Depends", false, none⟩] }

/-- A version of package B depending on A with no constraints. -/
def pvB (p : String × Option String) : PackageVersion :=
  { name := "B", version := p.1, repo := "CRAN", r_min := p.2,
    dependencies := [⟨"A", [], "Depends", false, none⟩] }

/-- Frozen provider for the cycle scenario: the versions of A and B, each
given as a (version, r_min) pair, on CRAN only. -/
def mutualEnv (lA lB : List (String × Option String)) : SolverEnv :=
  ⟨fun pkg src _ _ _ =>
    if src = "cran" && pkg = "A" then .ok (lA.map pvA)
    else if src = "cran" && pkg = "B" then .ok (lB.map pvB)
    else .error ()⟩

def targetA : TargetContext := { identifier := "A", package := "A", source := "cran" }

/-- The request solve builds for target A. -/
def reqA : PackageRequest :=
  { package := "A", source := some "cran", constraints := [], required_by := ["A"],
    bioc_release := none, github_ref := none, github_token := none }

/-- The child request for B generated while resolving a version of A. -/
def reqB : PackageRequest :=
  { package := "B", source := none, constraints := [], required_by := ["A", "A"],
    bioc_release := none, github_ref := none, github_token := none }

/-- The child request for A generated while resolving a version of B. -/
def reqA2 : PackageRequest :=
  { package := "A", source := none, constraints := [], required_by := ["A", "A", "B"],
    bioc_release := none, github_ref := none, github_token := none }

/-- The candidate pipeline of _candidate_versions after source loading:
dedup by (repo, version), version-descending stable sort, then the
priority stable sort. -/
def sortCands (order : List String) (l : List PackageVersion) : List PackageVersion :=
  stableSort (priorityLe order) (stableSort pvDescLe
    (dedupByKey (fun v => (v.repo, v.version)) l []))

theorem versionPasses_of_rmin (R : String) (v : PackageVersion)
    (h : ∀ m, v.r_min = some m → 0 ≤ compare_versions R m) :
    versionPasses R [] v = true := by
  cases hm : v.r_min with
  | none => simp [versionPasses, hm]
  | some m =>
      have h0 := h m hm
      have hd : decide (compare_versions R m < 0) = false := by
        simp only [decide_eq_false_iff_not]
        omega
      simp [versionPasses, hm, hd]

theorem candA_eq (lA lB : List (String × Option String)) (R : String)
    (hAm : ∀ p ∈ lA, ∀ m, p.2 = some m → 0 ≤ compare_versions R m) :
    candidate_versions (mutualEnv lA lB) none reqA R []
      = sortCands ["cran", "bioc"] (lA.map pvA) := by
  have hfil : (lA.map pvA).filter (versionPasses R []) = lA.map pvA :=
    List.filter_eq_self.mpr (fun v hv => by
      rcases List.mem_map.mp hv with ⟨p, hp, rfl⟩
      exact versionPasses_of_rmin R _ (fun m hm => hAm p hp m hm))
  show stableSort _ (stableSort pvDescLe (dedupByKey _
    (((lA.map pvA).filter (versionPasses R []))) [])) = _
  rw [hfil]
  rfl

theorem candB_eq (lA lB : List (String × Option String)) (R : String)
    (hBm : ∀ p ∈ lB, ∀ m, p.2 = some m → 0 ≤ compare_versions R m) :
    candidate_versions (mutualEnv lA lB) none reqB R []
      = sortCands ["cran", "bioc"] (lB.map pvB) := by
  have hfil : (lB.map pvB).filter (versionPasses R []) = lB.map pvB :=
    List.filter_eq_self.mpr (fun v hv => by
      rcases List.mem_map.mp hv with ⟨p, hp, rfl⟩
      exact versionPasses_of_rmin R _ (fun m hm => hBm p hp m hm))
  show stableSort _ (stableSort pvDescLe (dedupByKey _
    (((lB.map pvB).filter (versionPasses R []))) [])) = _
  rw [hfil]
  rfl

theorem pvDescLe_refl (a : PackageVersion) : pvDescLe a a = true := by
  simp [pvDescLe, compare_versions, compareComps_self]

theorem compare_versions_flip (a b : String) :
    compare_versions a b = -compare_versions b a := by
  have h := compareComps_flip (RVersion.of a).components (RVersion.of b).components
  show compareComps (RVersion.of a).components (RVersion.of b).components
    = -compareComps (RVersion.of b).components (RVersion.of a).components
  omega

theorem source_priority_cran (v : PackageVersion) (h : v.repo = "CRAN") :
    source_priority ["cran", "bioc"] v = 0 := by
  simp only [source_priority, h]
  rfl

/-- Shape of the candidate list for a package whose versions all live on
CRAN: it is nonempty, its head is one of the available versions, and no
available version is strictly newer than the head. -/
theorem sortCands_spec (mk : String × Option String → PackageVersion)
    (hrepo : ∀ p, (mk p).repo = "CRAN") (hver : ∀ p, (mk p).version = p.1)
    (l : List (String × Option String)) (hl : l ≠ []) :
    ∃ p ∈ l, ∃ t, sortCands ["cran", "bioc"] (l.map mk) = mk p :: t ∧
      (∀ q ∈ l, compare_versions q.1 p.1 ≤ 0) := by
  have hdup_sub : ∀ x ∈ dedupByKey (fun v : PackageVersion => (v.repo, v.version))
      (l.map mk) [], x ∈ l.map mk :=
    fun x hx => dedupByKey_subset _ _ _ _ hx
  have hinner_perm := stableSort_perm pvDescLe
    (dedupByKey (fun v : PackageVersion => (v.repo, v.version)) (l.map mk) [])
  have hinner_mem : ∀ x ∈ stableSort pvDescLe
      (dedupByKey (fun v : PackageVersion => (v.repo, v.version)) (l.map mk) []),
      x ∈ l.map mk :=
    fun x hx => hdup_sub x (hinner_perm.mem_iff.mp hx)
  have hinner_repo : ∀ x ∈ stableSort pvDescLe
      (dedupByKey (fun v : PackageVersion => (v.repo, v.version)) (l.map mk) []),
      x.repo = "CRAN" := by
    intro x hx
    rcases List.mem_map.mp (hinner_mem x hx) with ⟨p, _, rfl⟩
    exact hrepo p
  have houter : sortCands ["cran", "bioc"] (l.map mk)
      = stableSort pvDescLe
        (dedupByKey (fun v : PackageVersion => (v.repo, v.version)) (l.map mk) []) := by
    apply stableSort_eq_self
    apply List.pairwise_of_forall_mem_list
    intro a ha b hb
    simp [priorityLe, source_priority_cran a (hinner_repo a ha),
      source_priority_cran b (hinner_repo b hb)]
  have hinner_sorted := stableSort_pairwise pvDescLe_total pvDescLe_trans
    (dedupByKey (fun v : PackageVersion => (v.repo, v.version)) (l.map mk) [])
  -- nonemptiness
  have hne : stableSort pvDescLe
      (dedupByKey (fun v : PackageVersion => (v.repo, v.version)) (l.map mk) []) ≠ [] := by
    intro hnil
    cases l with
    | nil => exact hl rfl
    | cons a as =>
        have : (dedupByKey (fun v : PackageVersion => (v.repo, v.version))
            ((a :: as).map mk) []).length = 0 := by
          rw [← hinner_perm.length_eq, hnil]
          rfl
        simp [dedupByKey] at this
  cases hc : stableSort pvDescLe
      (dedupByKey (fun v : PackageVersion => (v.repo, v.version)) (l.map mk) []) with
  | nil => exact absurd hc hne
  | cons c1 t =>
      rcases List.mem_map.mp (hinner_mem c1 (by rw [hc]; simp)) with ⟨p, hp, hmkp⟩
      refine ⟨p, hp, t, by rw [houter, hc, hmkp], ?_⟩
      intro q hq
      have hqmem : mk q ∈ l.map mk := List.mem_map_of_mem mk hq
      rcases dedupByKey_cover (fun v : PackageVersion => (v.repo, v.version))
          (l.map mk) [] (mk q) hqmem with hseen | ⟨d, hd, hkd⟩
      · simp at hseen
      · have hdin : d ∈ c1 :: t := by
          rw [← hc]
          exact hinner_perm.mem_iff.mpr hd
        have hled : pvDescLe c1 d = true := by
          have hpw : List.Pairwise (fun a b => pvDescLe a b = true) (c1 :: t) := by
            rw [← hc]; exact hinner_sorted
          exact pairwise_head_le hpw (pvDescLe_refl c1) d hdin
        have hdver : d.version = q.1 := by
          have := congrArg Prod.snd hkd
          simpa [hver q] using this
        simp only [pvDescLe, decide_eq_true_eq] at hled
        have hvc1 : c1.version = p.1 := by rw [← hmkp, hver p]
        rw [hdver, hvc1] at hled
        have hflip := compare_versions_flip q.1 p.1
        omega

/-- C6: when A and B depend on each other with no version constraints
and every available version tolerates the candidate R, the solve
succeeds, the plan binds both A and B, each to a version no other
available version of the same package strictly exceeds, and the cycle is
broken by returning the existing assignment of A when A is requested
again while still on the visiting stack. -/
theorem C6_mutual_cycle_resolves (lA lB : List (String × Option String)) (R : String)
    (hA0 : lA ≠ []) (hB0 : lB ≠ [])
    (hAm : ∀ p ∈ lA, ∀ m, p.2 = some m → 0 ≤ compare_versions R m)
    (hBm : ∀ p ∈ lB, ∀ m, p.2 = some m → 0 ≤ compare_versions R m)
    (fuel : Nat) (hf : 7 ≤ fuel) :
    ∃ pa ∈ lA, ∃ pb ∈ lB,
      solve (mutualEnv lA lB) false none [targetA] R fuel
        = .ok { r_version := R,
                selections := [("A", selectionOf (pvA pa)), ("B", selectionOf (pvB pb))] }
      ∧ (∀ q ∈ lA, compare_versions q.1 pa.1 ≤ 0)
      ∧ (∀ q ∈ lB, compare_versions q.1 pb.1 ≤ 0) := by
  obtain ⟨pa, hpa, tA, hsA, hmaxA⟩ :=
    sortCands_spec pvA (fun _ => rfl) (fun _ => rfl) lA hA0
  obtain ⟨pb, hpb, tB, hsB, hmaxB⟩ :=
    sortCands_spec pvB (fun _ => rfl) (fun _ => rfl) lB hB0
  have hca : candidate_versions (mutualEnv lA lB) none
      ⟨"A", some "cran", [], ["A"], none, none, none, none⟩ R [] = pvA pa :: tA := by
    have h := candA_eq lA lB R hAm
    rw [show (⟨"A", some "cran", [], ["A"], none, none, none, none⟩ : PackageRequest)
      = reqA from rfl, h, hsA]
  have hcb : candidate_versions (mutualEnv lA lB) none
      ⟨"B", none, [], ["A", "A"], none, none, none, none⟩ R [] = pvB pb :: tB := by
    have h := candB_eq lA lB R hBm
    rw [show (⟨"B", none, [], ["A", "A"], none, none, none, none⟩ : PackageRequest)
      = reqB from rfl, h, hsB]
  refine ⟨pa, hpa, pb, hpb, ?_, hmaxA, hmaxB⟩
  obtain ⟨k, rfl⟩ := Nat.exists_eq_add_of_le hf
  have h7 : 7 + k = k + 7 := by omega
  rw [h7]
  have hinfSB : infer_source (selectionOf (pvB pb)) ⟨"A", [], "Depends", false, none⟩
      = none := rfl
  have hinfRB : infer_bioc_release none (selectionOf (pvB pb))
      ⟨"A", [], "Depends", false, none⟩ none = none := rfl
  have hinfSA : infer_source (selectionOf (pvA pa)) ⟨"B", [], "Depends", false, none⟩
      = none := rfl
  have hinfRA : infer_bioc_release none (selectionOf (pvA pa))
      ⟨"B", [], "Depends", false, none⟩ none = none := rfl
  have hpkgA : (selectionOf (pvA pa)).package = "A" := rfl
  have hpkgB : (selectionOf (pvB pb)).package = "B" := rfl
  have hdepA : (selectionOf (pvA pa)).dependencies
      = [⟨"B", [], "Depends", false, none⟩] := rfl
  have hdepB : (selectionOf (pvB pb)).dependencies
      = [⟨"A", [], "Depends", false, none⟩] := rfl
  have hA2 : resolve_package (mutualEnv lA lB) (k + 1)
      ⟨"A", none, [], ["A", "A", "B"], none, none, none, none⟩
      ⟨R, false, none, [("A", selectionOf (pvA pa)), ("B", selectionOf (pvB pb))],
        [("A", []), ("B", [])], ["A", "B"], []⟩
      = (⟨R, false, none, [("A", selectionOf (pvA pa)), ("B", selectionOf (pvB pb))],
        [("A", []), ("B", [])], ["A", "B"], []⟩, .ok (selectionOf (pvA pa))) := by
    simp [resolve_package, alookup]
  have hdB : resolve_dependencies (mutualEnv lA lB) (k + 2) (selectionOf (pvB pb))
      ⟨"B", none, [], ["A", "A"], none, none, none, none⟩
      [⟨"A", [], "Depends", false, none⟩]
      ⟨R, false, none, [("A", selectionOf (pvA pa)), ("B", selectionOf (pvB pb))],
        [("A", []), ("B", [])], ["A", "B"], []⟩
      = (⟨R, false, none, [("A", selectionOf (pvA pa)), ("B", selectionOf (pvB pb))],
        [("A", []), ("B", [])], ["A", "B"], []⟩, .ok ()) := by
    simp [resolve_dependencies, hinfSB, hinfRB, hpkgB, hA2]
  have htcB : try_candidates (mutualEnv lA lB) (k + 3)
      ⟨"B", none, [], ["A", "A"], none, none, none, none⟩ [] []
      (pvB pb :: tB) (pvB pb :: tB) []
      ⟨R, false, none, [("A", selectionOf (pvA pa))], [("A", [])], ["A", "B"], []⟩
      = (⟨R, false, none, [("A", selectionOf (pvA pa)), ("B", selectionOf (pvB pb))],
        [("A", []), ("B", [])], ["A"], []⟩, .ok (selectionOf (pvB pb))) := by
    simp [try_candidates, pyDictSet, visitRemove, hdepB, hdB]
  have hrpB : resolve_package (mutualEnv lA lB) (k + 4)
      ⟨"B", none, [], ["A", "A"], none, none, none, none⟩
      ⟨R, false, none, [("A", selectionOf (pvA pa))], [("A", [])], ["A"], []⟩
      = (⟨R, false, none, [("A", selectionOf (pvA pa)), ("B", selectionOf (pvB pb))],
        [("A", []), ("B", [])], ["A"], []⟩, .ok (selectionOf (pvB pb))) := by
    simp [resolve_package, alookup, hcb, visitAdd, htcB]
  have hdA : resolve_dependencies (mutualEnv lA lB) (k + 5) (selectionOf (pvA pa))
      ⟨"A", some "cran", [], ["A"], none, none, none, none⟩
      [⟨"B", [], "Depends", false, none⟩]
      ⟨R, false, none, [("A", selectionOf (pvA pa))], [("A", [])], ["A"], []⟩
      = (⟨R, false, none, [("A", selectionOf (pvA pa)), ("B", selectionOf (pvB pb))],
        [("A", []), ("B", [])], ["A"], []⟩, .ok ()) := by
    simp [resolve_dependencies, hinfSA, hinfRA, hpkgA, hrpB]
  have htcA : try_candidates (mutualEnv lA lB) (k + 6)
      ⟨"A", some "cran", [], ["A"], none, none, none, none⟩ [] []
      (pvA pa :: tA) (pvA pa :: tA) []
      ⟨R, false, none, [], [], ["A"], []⟩
      = (⟨R, false, none, [("A", selectionOf (pvA pa)), ("B", selectionOf (pvB pb))],
        [("A", []), ("B", [])], [], []⟩, .ok (selectionOf (pvA pa))) := by
    simp [try_candidates, pyDictSet, visitRemove, hdepA, hdA]
  have hrpA : resolve_package (mutualEnv lA lB) (k + 7)
      ⟨"A", some "cran", [], ["A"], none, none, none, none⟩
      ⟨R, false, none, [], [], [], []⟩
      = (⟨R, false, none, [("A", selectionOf (pvA pa)), ("B", selectionOf (pvB pb))],
        [("A", []), ("B", [])], [], []⟩, .ok (selectionOf (pvA pa))) := by
    simp [resolve_package, alookup, hca, visitAdd, htcA]
  simp [solve, solve_targets, targetA, hrpA]

/-- Witness for C1_conflict_record_type_error at R "4.3.0", the
identity-order set enumeration and fuel 2. -/
theorem C1_conflict_record_type_error_witness :
    solve solverEnvFoo false none [targetFoo] "4.3.0" 2
      = .error (.res ⟨"foo", ["foo"], "No candidate versions satisfy constraints",
          some ["(none)"]⟩) ∧
    compute_resolution solverEnvFoo rvDedup [targetFoo] false none none 2
      = .error .typeError :=
  ⟨C1_conflict_record_type_error.1 "4.3.0" 2 (by omega),
   C1_conflict_record_type_error.2 rvDedup (fun _ => List.Perm.refl _) 2 (by omega)⟩

/-- Witness for C6_mutual_cycle_resolves with one version of A, one
version of B carrying the R minimum 4.0, candidate R 4.1.0 and fuel 7. -/
theorem C6_mutual_cycle_resolves_witness :
    ∃ pa ∈ [(("1.0" : String), (none : Option String))],
      ∃ pb ∈ [(("2.0" : String), (some "4.0" : Option String))],
        solve (mutualEnv [("1.0", none)] [("2.0", some "4.0")]) false none [targetA] "4.1.0" 7
          = .ok { r_version := "4.1.0",
                  selections := [("A", selectionOf (pvA pa)), ("B", selectionOf (pvB pb))] }
        ∧ (∀ q ∈ [(("1.0" : String), (none : Option String))],
            compare_versions q.1 pa.1 ≤ 0)
        ∧ (∀ q ∈ [(("2.0" : String), (some "4.0" : Option String))],
            compare_versions q.1 pb.1 ≤ 0) :=
  C6_mutual_cycle_resolves [("1.0", none)] [("2.0", some "4.0")] "4.1.0"
    (by decide) (by decide)
    (by intro p hp m hm; rcases List.mem_singleton.mp hp with rfl; simp at hm)
    (by intro p hp m hm
        rcases List.mem_singleton.mp hp with rfl
        cases Option.some_inj.mp hm
        decide)
    7 (by omega)
